import Mathlib

/-! Syntacore IPIC driver (`drivers/interrupt_controller/intc_scr_ipic.c`).

A shallow embedding of the driver: every C function becomes a function on an
explicit machine state (controller registers plus the log of the accesses the
driver performs), and the properties of the driver are proved about these
functions.

Conventions.
* `unsigned long` values are naturals below `2 ^ XLEN`; a CSR write truncates
  the written value to that width and a CSR read returns such a value.
* C `int` / `unsigned` / `uint32_t` values are carried as their 32-bit
  (two's-complement) patterns, naturals below `2 ^ 32`.
-/

namespace ScrIpic

/-! ## Build configuration -/

/-- Width of `unsigned long` (and of a CSR) on the target core. -/
inductive XLen
  | rv32
  | rv64
  deriving DecidableEq

/-- Number of bits of an `unsigned long`. -/
def XLen.bits : XLen → Nat
  | .rv32 => 32
  | .rv64 => 64

/-- The configuration macros the driver is compiled against. -/
structure Config where
  /-- Width of the core registers. -/
  xlen : XLen
  /-- Value of `PLF_IPIC_STATIC_LINE_MAPPING` (`CONFIG_IPIC_STATIC_LINE_MAPPING`), as a truth value. -/
  static_line_mapping : Bool
  /-- Value of `PLF_IPIC_IRQ_LN_NUM` (`CONFIG_EXT_IPIC_IRQ_LN_NUM`). -/
  ln_num : Nat
  /-- Value of `CONFIG_2ND_LVL_ISR_TBL_OFFSET`. -/
  isr_tbl_offset : Nat

/-- Modulus of an `unsigned long`. -/
def Config.ulong_mod (c : Config) : Nat := 2 ^ c.xlen.bits

/-- Modulus of a 32-bit C integer. -/
def INT_MOD : Nat := 2 ^ 32

/-- The test `x < 0` on the 32-bit pattern of a C `int`. -/
def int_is_neg (x : Nat) : Bool := decide (2 ^ 31 ≤ x % INT_MOD)

/-- Conversion of a C `int` pattern to `unsigned long` (sign extension). -/
def int_to_ulong (c : Config) (x : Nat) : Nat :=
  if int_is_neg x then x % INT_MOD + (c.ulong_mod - INT_MOD) else x % INT_MOD

/-- Conversion of an `unsigned` / `uint32_t` pattern to `unsigned long` (zero extension). -/
def uint_to_ulong (x : Nat) : Nat := x % INT_MOD

/-- The operand `~m` of an `unsigned long` conjunction, for a small non-negative `int` mask `m`:
all bits of the word set except those of `m`. -/
def ulong_not (c : Config) (m : Nat) : Nat := c.ulong_mod - 1 - m

/-! ## Constants of the driver -/

def PLF_IPIC_IRQ_LN_NUM (c : Config) : Nat := c.ln_num
def PLF_IPIC_IRQ_VEC_NUM (c : Config) : Nat := PLF_IPIC_IRQ_LN_NUM c
def IPIC_IRQ_LN_VOID (c : Config) : Nat := PLF_IPIC_IRQ_LN_NUM c

def IPIC_IRQ_PENDING : Nat := 1 <<< 0
def IPIC_IRQ_ENABLE : Nat := 1 <<< 1
def IPIC_IRQ_LEVEL : Nat := 0 <<< 2
def IPIC_IRQ_EDGE : Nat := 1 <<< 2
def IPIC_IRQ_INV : Nat := 1 <<< 3
def IPIC_IRQ_MODE_MASK : Nat := 3 <<< 2
def IPIC_IRQ_CLEAR_PENDING : Nat := IPIC_IRQ_PENDING

def IPIC_IRQ_IN_SERVICE : Nat := 1 <<< 4
def IPIC_IRQ_PRIV_MASK : Nat := 3 <<< 8
def IPIC_IRQ_PRIV_MMODE : Nat := 3 <<< 8
def IPIC_IRQ_PRIV_SMODE : Nat := 1 <<< 8
def IPIC_IRQ_LN_OFFS : Nat := 12

def PLF_IPIC_MBASE : Nat := 0xbf0
def IPIC_CISV : Nat := PLF_IPIC_MBASE + 0
def IPIC_CICSR : Nat := PLF_IPIC_MBASE + 1
def IPIC_IPR : Nat := PLF_IPIC_MBASE + 2
def IPIC_ISVR : Nat := PLF_IPIC_MBASE + 3
def IPIC_EOI : Nat := PLF_IPIC_MBASE + 4
def IPIC_SOI : Nat := PLF_IPIC_MBASE + 5
def IPIC_IDX : Nat := PLF_IPIC_MBASE + 6
def IPIC_ICSR : Nat := PLF_IPIC_MBASE + 7
def IPIC_IER : Nat := PLF_IPIC_MBASE + 8
def IPIC_IMAP : Nat := PLF_IPIC_MBASE + 9
def IPIC_VOID_VEC : Nat := 16

/-- The macro `MK_IRQ_CFG(line, mode, flags)`, computed on 32-bit `int` patterns. -/
def MK_IRQ_CFG (line mode flags : Nat) : Nat :=
  (mode % INT_MOD) ||| (flags % INT_MOD) ||| ((line <<< IPIC_IRQ_LN_OFFS) % INT_MOD)

/-! ## The controller -/

/-- Registers of the controller and of the core that the driver touches. -/
structure Regs where
  /-- The select register `IPIC_IDX`. -/
  idx : Nat
  /-- The per-line control/status words, addressed through `IPIC_ICSR` by the value of `IPIC_IDX`. -/
  icsr : Nat → Nat
  /-- The vectors in service, innermost first. -/
  isv : List Nat
  /-- The vector the arbiter of the controller resolves at the next start of service
  (`IPIC_VOID_VEC` when no line is ready). -/
  arb : Nat
  /-- Interrupt delivery on the calling core is enabled. -/
  mie : Bool

/-- Modelled from the spec: what the controller keeps in a line's word `old` when the word
`v` is written to `IPIC_ICSR`. The pending flag is latched by hardware and software may only
force-clear it: a written bit 0 is the command `IPIC_IRQ_CLEAR_PENDING` and clears the flag;
a written bit 0 of 0 is no command and the flag keeps its latched value. Every other bit is
stored as written. -/
def icsr_store (c : Config) (old v : Nat) : Nat :=
  if v &&& IPIC_IRQ_CLEAR_PENDING ≠ 0 then v &&& ulong_not c IPIC_IRQ_PENDING
  else v ||| (old &&& IPIC_IRQ_PENDING)

/-- Modelled from the spec: the effect of a CSR write on the controller (the CSR
instructions and the controller are not part of the driver sources).
`IPIC_IDX` selects a line; `IPIC_ICSR` addresses the word of the selected line;
`IPIC_SOI` starts the service of the vector chosen by the arbiter (push) and, when that is
a real vector, clears the pending flag in the word of its line;
`IPIC_EOI` retires the innermost vector in service (pop). -/
def Regs.write (c : Config) (reg v : Nat) (s : Regs) : Regs :=
  let v := v % c.ulong_mod
  if reg = IPIC_IDX then { s with idx := v }
  else if reg = IPIC_ICSR then
    { s with icsr := fun i => if i = s.idx then icsr_store c (s.icsr i) v else s.icsr i }
  else if reg = IPIC_SOI then
    { s with isv := s.arb :: s.isv,
             icsr := fun i => if i = s.arb ∧ s.arb ≠ IPIC_VOID_VEC
                              then s.icsr i &&& ulong_not c IPIC_IRQ_PENDING else s.icsr i }
  else if reg = IPIC_EOI then { s with isv := s.isv.tail }
  else s

/-- Modelled from the spec: the value a CSR read returns. `IPIC_CISV` is the current
(innermost) vector in service, the void vector when there is none. -/
def Regs.read (c : Config) (reg : Nat) (s : Regs) : Nat :=
  if reg = IPIC_IDX then s.idx % c.ulong_mod
  else if reg = IPIC_ICSR then s.icsr s.idx % c.ulong_mod
  else if reg = IPIC_CISV then s.isv.headD IPIC_VOID_VEC % c.ulong_mod
  else 0

/-- The control/status word of line `l` as a read through the window returns it. -/
def Regs.line_word (c : Config) (s : Regs) (l : Nat) : Nat := s.icsr l % c.ulong_mod

/-- What the driver does that is visible from outside, in program order. -/
inductive Event
  | csr_write (reg val : Nat)
  | csr_read (reg : Nat)
  | isr_call (index arg : Nat)
  | irq_lock
  | irq_unlock (key : Nat)
  deriving DecidableEq

/-- The machine a driver function runs on: the registers and the log of its own accesses
(oldest first). -/
structure Machine where
  hw : Regs
  trace : List Event

/-- The macro `csr_write(reg, val)`. -/
def csr_write (c : Config) (reg val : Nat) (m : Machine) : Machine :=
  { hw := m.hw.write c reg val, trace := m.trace ++ [Event.csr_write reg (val % c.ulong_mod)] }

/-- The macro `csr_read(reg)`. -/
def csr_read (c : Config) (reg : Nat) (m : Machine) : Nat × Machine :=
  (m.hw.read c reg, { m with trace := m.trace ++ [Event.csr_read reg] })

/-- Modelled from the spec: `irq_lock()` suppresses interrupt delivery on the calling core
and returns the prior interrupt-enable state as the key. -/
def irq_lock (m : Machine) : Nat × Machine :=
  (if m.hw.mie then 1 else 0,
   { hw := { m.hw with mie := false }, trace := m.trace ++ [Event.irq_lock] })

/-- Modelled from the spec: `irq_unlock(key)` restores the interrupt-enable state the key
records. -/
def irq_unlock (key : Nat) (m : Machine) : Machine :=
  { hw := { m.hw with mie := decide (key ≠ 0) }, trace := m.trace ++ [Event.irq_unlock key] }

/-! ## The driver -/

/-- `ipic_irq_enable(unsigned irq_vec)`. -/
def ipic_irq_enable (c : Config) (irq_vec : Nat) (m : Machine) : Machine :=
  let m1 := csr_write c IPIC_IDX (uint_to_ulong irq_vec) m
  let r := csr_read c IPIC_ICSR m1
  let state := (r.1 &&& ulong_not c IPIC_IRQ_PENDING) ||| IPIC_IRQ_ENABLE
  csr_write c IPIC_ICSR state r.2

/-- `ipic_irq_disable(unsigned irq_vec)`. -/
def ipic_irq_disable (c : Config) (irq_vec : Nat) (m : Machine) : Machine :=
  let m1 := csr_write c IPIC_IDX (uint_to_ulong irq_vec) m
  let r := csr_read c IPIC_ICSR m1
  let state := r.1 &&& ulong_not c (IPIC_IRQ_ENABLE ||| IPIC_IRQ_PENDING)
  csr_write c IPIC_ICSR state r.2

/-- `ipic_irq_current_vector()`. -/
def ipic_irq_current_vector (c : Config) (m : Machine) : Nat × Machine :=
  csr_read c IPIC_CISV m

/-- `ipic_soi()`. -/
def ipic_soi (c : Config) (m : Machine) : Nat × Machine :=
  ipic_irq_current_vector c (csr_write c IPIC_SOI 0 m)

/-- `ipic_eoi()`. -/
def ipic_eoi (c : Config) (m : Machine) : Machine :=
  csr_write c IPIC_EOI 0 m

/-- `ipic_irq_setup(int irq_vec, int line, int mode, int flags)`; returns the `int` result
and the machine after the two writes. -/
def ipic_irq_setup (c : Config) (irq_vec line mode flags : Nat) (m : Machine) : Nat × Machine :=
  let irq_vec := if c.static_line_mapping || int_is_neg irq_vec then line % INT_MOD
                 else irq_vec % INT_MOD
  let m1 := csr_write c IPIC_IDX (int_to_ulong c irq_vec) m
  let m2 := csr_write c IPIC_ICSR
    (int_to_ulong c (MK_IRQ_CFG line mode (flags ||| IPIC_IRQ_CLEAR_PENDING))) m1
  (irq_vec, m2)

/-- `ipic_irq_reset(int irq_vec)`. -/
def ipic_irq_reset (c : Config) (irq_vec : Nat) (m : Machine) : Machine :=
  (ipic_irq_setup c irq_vec (IPIC_IRQ_LN_VOID c) IPIC_IRQ_PRIV_MMODE IPIC_IRQ_CLEAR_PENDING m).2

/-- `riscv_ipic_irq_enable(uint32_t irq_num)`. -/
def riscv_ipic_irq_enable (c : Config) (irq_num : Nat) (m : Machine) : Machine :=
  let k := irq_lock m
  irq_unlock k.1 (ipic_irq_enable c irq_num k.2)

/-- `riscv_ipic_irq_disable(uint32_t irq_num)`. -/
def riscv_ipic_irq_disable (c : Config) (irq_num : Nat) (m : Machine) : Machine :=
  let k := irq_lock m
  irq_unlock k.1 (ipic_irq_disable c irq_num k.2)

/-- `riscv_ipic_irq_is_enabled(uint32_t irq_num)`: the `int` result and the machine after
the read. -/
def riscv_ipic_irq_is_enabled (c : Config) (irq_num : Nat) (m : Machine) : Nat × Machine :=
  let r := csr_read c IPIC_CISV m
  (if (uint_to_ulong irq_num &&& r.1 ≠ 0) && !(irq_num % INT_MOD &&& IPIC_VOID_VEC ≠ 0)
   then 1 else 0, r.2)

/-- An entry `struct _isr_table_entry` of `_sw_isr_table`: the registered argument and the
handler, `none` when no handler is registered. A handler acts on the registers. -/
structure IsrTableEntry where
  arg : Nat
  isr : Option (Nat → Regs → Regs)

/-- The call `ite->isr(ite->arg)` through the entry at `index`: the call is logged and the
handler runs; a call through an entry without a handler faults. -/
def isr_invoke (tbl : Nat → IsrTableEntry) (index : Nat) (m : Machine) : Option Machine :=
  match (tbl index).isr with
  | some h => some { hw := h (tbl index).arg m.hw,
                     trace := m.trace ++ [Event.isr_call index (tbl index).arg] }
  | none => none

/-- `scr_ipic_irq_handler(const void *arg)`. The pointer `ite` is the address of an element
of `_sw_isr_table`: `some` of the element's index, never the null pointer. -/
def scr_ipic_irq_handler (c : Config) (tbl : Nat → IsrTableEntry) (_arg : Nat) (m : Machine) :
    Option Machine :=
  let r := ipic_soi c m
  let currentVector := (r.1 + c.isr_tbl_offset) % c.ulong_mod
  let ite : Option Nat := some currentVector
  match ite with
  | some i => (isr_invoke tbl i r.2).map (ipic_eoi c)
  | none => some (ipic_eoi c r.2)

/-! ## Initialisation -/

/-- Modelled from the spec: the core's single external-interrupt trap line,
`RISCV_MACHINE_EXT_IRQ` (its value is not part of the driver sources). -/
def RISCV_MACHINE_EXT_IRQ : Nat := 11

/-- The calls `scr_ipic_init` makes, in program order. In `irq_connect` the handler is
`scr_ipic_irq_handler`; the fields are the line, the priority, the argument and the flags
given to `IRQ_CONNECT`. -/
inductive InitStep
  | ipic_irq_reset (irq_vec : Nat)
  | irq_connect (irq priority arg flags : Nat)
  | irq_enable (irq : Nat)
  deriving DecidableEq

/-- The machine `scr_ipic_init` runs on: the controller, the lines of the core that have
`scr_ipic_irq_handler` installed, the lines of the core that are unmasked, and the log of
the calls made. -/
structure Boot where
  m : Machine
  connected : List Nat
  unmasked : List Nat
  steps : List InitStep

/-- One iteration of the loop of `scr_ipic_init`: the call `ipic_irq_reset(i)`. -/
def init_reset (c : Config) (b : Boot) (i : Nat) : Boot :=
  { b with m := ipic_irq_reset c i b.m, steps := b.steps ++ [InitStep.ipic_irq_reset i] }

/-- Modelled from the spec: `IRQ_CONNECT(irq, priority, scr_ipic_irq_handler, arg, flags)`
installs the handler on line `irq` of the core. -/
def IRQ_CONNECT (irq priority arg flags : Nat) (b : Boot) : Boot :=
  { b with connected := irq :: b.connected,
           steps := b.steps ++ [InitStep.irq_connect irq priority arg flags] }

/-- Modelled from the spec: `irq_enable(irq)` unmasks line `irq` of the core. -/
def irq_enable (irq : Nat) (b : Boot) : Boot :=
  { b with unmasked := irq :: b.unmasked, steps := b.steps ++ [InitStep.irq_enable irq] }

/-- `scr_ipic_init()`: the `int` result and the machine after the call. The loop
`for (int i = 0; i < PLF_IPIC_IRQ_VEC_NUM; i++)` runs over `0, 1, ..., N - 1`. -/
def scr_ipic_init (c : Config) (b : Boot) : Nat × Boot :=
  let b1 := (List.range (PLF_IPIC_IRQ_VEC_NUM c)).foldl (init_reset c) b
  let b2 := IRQ_CONNECT RISCV_MACHINE_EXT_IRQ IPIC_IRQ_LEVEL 0 0 b1
  (0, irq_enable RISCV_MACHINE_EXT_IRQ b2)

/-- The state of a line's word the reset sequence aims at: disabled, not pending, mapped to
the void line, restricted to machine mode. -/
def is_reset_word (c : Config) (w : Nat) : Prop :=
  w.testBit 1 = false ∧ w.testBit 0 = false ∧ w >>> IPIC_IRQ_LN_OFFS = IPIC_IRQ_LN_VOID c ∧
    w &&& IPIC_IRQ_PRIV_MASK = IPIC_IRQ_PRIV_MMODE

instance (c : Config) (w : Nat) : Decidable (is_reset_word c w) := by
  unfold is_reset_word; infer_instance

end ScrIpic

/-! MPU configuration (`soc/riscv/riscv-privilege/scr7/mpu.c`, `mpu.h`). -/

namespace ScrMpu

open ScrIpic (XLen)

/-- The build configuration of the MPU code. -/
structure Config where
  /-- Width of the core registers (`__riscv_xlen`). -/
  xlen : XLen
  /-- Value of `SCR_MPU_REGIONS` (devicetree property `num_mpu_regions`), an `int` constant. -/
  regions : Nat
  /-- The constant is a non-negative `int`. -/
  regions_lt : regions < 2 ^ 31

/-- Modulus of an `unsigned long`. -/
def Config.ulong_mod (c : Config) : Nat := 2 ^ c.xlen.bits

/-- Modulus of an `unsigned`. -/
def UINT_MOD : Nat := 2 ^ 32

/-- The MPU registers `SCR_CSR_MPU_SEL`, `SCR_CSR_MPU_CTRL`, `SCR_CSR_MPU_ADDR` and
`SCR_CSR_MPU_MASK`; their numbers come from the devicetree and are pairwise distinct. -/
inductive Csr
  | SCR_CSR_MPU_SEL
  | SCR_CSR_MPU_CTRL
  | SCR_CSR_MPU_ADDR
  | SCR_CSR_MPU_MASK
  deriving DecidableEq

def SCR_MPU_CTRL_VALID : Nat := 1 <<< 0

/-- The macro `SCR_MPU_MK_ADDR32(addr)`. -/
def SCR_MPU_MK_ADDR32 (addr : Nat) : Nat :=
  ((addr / 4) ||| (addr &&& 0x80000000) ||| ((addr &&& 0x80000000) / 2)) &&& 0xffffffff

/-- The macro `SCR_MPU_MK_MASK32(size)`, on 32-bit `unsigned long`. -/
def SCR_MPU_MK_MASK32 (size : Nat) : Nat :=
  ((2 ^ 32 - 1 - (size % 2 ^ 32 + 2 ^ 32 - 1) % 2 ^ 32) / 4) &&& 0xffffffff

/-- The macro `SCR_MPU_MK_ADDR64(addr)`. -/
def SCR_MPU_MK_ADDR64 (addr : Nat) : Nat := addr / 4

/-- The macro `SCR_MPU_MK_MASK64(size)`, on 64-bit `unsigned long`. -/
def SCR_MPU_MK_MASK64 (size : Nat) : Nat :=
  (2 ^ 64 - 1 - (size % 2 ^ 64 + 2 ^ 64 - 1) % 2 ^ 64) / 4

/-- The macro `SCR_MPU_MK_ADDR(addr)`. -/
def SCR_MPU_MK_ADDR (c : Config) (addr : Nat) : Nat :=
  match c.xlen with
  | .rv32 => SCR_MPU_MK_ADDR32 addr
  | .rv64 => SCR_MPU_MK_ADDR64 addr

/-- The macro `SCR_MPU_MK_MASK(size)`. -/
def SCR_MPU_MK_MASK (c : Config) (size : Nat) : Nat :=
  match c.xlen with
  | .rv32 => SCR_MPU_MK_MASK32 size
  | .rv64 => SCR_MPU_MK_MASK64 size

/-- The type `scr_mem_region_info` (the `name` field plays no part); the fields hold
`uintptr_t` / `unsigned long` values. -/
structure scr_mem_region_info where
  base : Nat
  size : Nat
  attr : Nat
  deriving DecidableEq

/-- The three registers of one MPU region. -/
structure Region where
  ctrl : Nat
  addr : Nat
  mask : Nat
  deriving DecidableEq

/-- The MPU: the select register and the regions it addresses. -/
structure Regs where
  sel : Nat
  rgn : Nat → Region

/-- Modelled from the spec: the effect of a CSR write on the MPU (the hardware is not part
of the sources). `SCR_CSR_MPU_SEL` selects a region; the three other registers are those of
the selected region. -/
def Regs.write (c : Config) (reg : Csr) (v : Nat) (s : Regs) : Regs :=
  match reg with
  | .SCR_CSR_MPU_SEL => { s with sel := v % c.ulong_mod }
  | .SCR_CSR_MPU_CTRL =>
    { s with rgn := fun j => if j = s.sel then { s.rgn j with ctrl := v % c.ulong_mod }
                             else s.rgn j }
  | .SCR_CSR_MPU_ADDR =>
    { s with rgn := fun j => if j = s.sel then { s.rgn j with addr := v % c.ulong_mod }
                             else s.rgn j }
  | .SCR_CSR_MPU_MASK =>
    { s with rgn := fun j => if j = s.sel then { s.rgn j with mask := v % c.ulong_mod }
                             else s.rgn j }

/-- What the MPU code does that is visible from outside, in program order. -/
inductive Event
  | csr_write (reg : Csr) (val : Nat)
  | ifence
  deriving DecidableEq

/-- The machine the MPU code runs on: the MPU and the log of the accesses (oldest first). -/
structure Machine where
  hw : Regs
  trace : List Event

/-- The macro `csr_write(reg, val)`. -/
def csr_write (c : Config) (reg : Csr) (val : Nat) (m : Machine) : Machine :=
  { hw := m.hw.write c reg val, trace := m.trace ++ [Event.csr_write reg (val % c.ulong_mod)] }

/-- The instruction fence `ifence()`. -/
def ifence (m : Machine) : Machine :=
  { m with trace := m.trace ++ [Event.ifence] }

/-- `scr_mpu_region_setup(regn, base, size, attr)`. -/
def scr_mpu_region_setup (c : Config) (regn base size attr : Nat) (m : Machine) : Machine :=
  let m1 := csr_write c .SCR_CSR_MPU_SEL regn m
  let m2 := csr_write c .SCR_CSR_MPU_CTRL 0 m1
  let m3 := csr_write c .SCR_CSR_MPU_ADDR (SCR_MPU_MK_ADDR c base) m2
  let m4 := csr_write c .SCR_CSR_MPU_MASK (SCR_MPU_MK_MASK c size) m3
  csr_write c .SCR_CSR_MPU_CTRL attr m4

/-- The first loop of `scr_mpu_setup`, from the entry `rgn` points at (the head of the list)
with the region counter `rn`; returns the counter and the machine when the loop is left,
`none` when `rgn` runs past the end of the array. -/
def setup_loop (c : Config) :
    List scr_mem_region_info → Nat → Machine → Option (Nat × Machine)
  | [], _, _ => none
  | r :: rest, rn, m =>
    if r.size ≠ 0 ∧ rn < c.regions then
      if r.attr ≠ 0 then
        setup_loop c rest ((rn + 1) % UINT_MOD)
          (ifence (scr_mpu_region_setup c rn r.base r.size (r.attr ||| SCR_MPU_CTRL_VALID) m))
      else setup_loop c rest rn m
    else some (rn, m)

/-- The loop `do { ... } while (rn < SCR_MPU_REGIONS)` of `scr_mpu_setup`, with a bound on
the number of iterations; `none` when the bound is reached. -/
def disable_loop (c : Config) : Nat → Nat → Machine → Option Machine
  | 0, _, _ => none
  | fuel + 1, rn, m =>
    let m1 := ifence (csr_write c .SCR_CSR_MPU_CTRL 0 (csr_write c .SCR_CSR_MPU_SEL rn m))
    if (rn + 1) % UINT_MOD < c.regions then disable_loop c fuel ((rn + 1) % UINT_MOD) m1
    else some m1

/-- `scr_mpu_setup(mem_regions)`; the second loop is given `SCR_MPU_REGIONS + 1` iterations. -/
def scr_mpu_setup (c : Config) (mem_regions : List scr_mem_region_info) (m : Machine) :
    Option Machine :=
  match setup_loop c mem_regions 1 m with
  | none => none
  | some (rn, m1) =>
    if rn > 1 then
      (disable_loop c (c.regions + 1) rn m1).map
        (fun m2 => csr_write c .SCR_CSR_MPU_CTRL 0 (csr_write c .SCR_CSR_MPU_SEL 0 m2))
    else some m1

/-- The attributed entries of a table before its first entry of size 0, in table order. -/
def attributed (tbl : List scr_mem_region_info) : List scr_mem_region_info :=
  (tbl.takeWhile (fun r => decide (r.size ≠ 0))).filter (fun r => decide (r.attr ≠ 0))

/-- The registers of a region programmed from a table entry. -/
def programmed (c : Config) (e : scr_mem_region_info) : Region :=
  { ctrl := (e.attr ||| SCR_MPU_CTRL_VALID) % c.ulong_mod,
    addr := SCR_MPU_MK_ADDR c e.base % c.ulong_mod,
    mask := SCR_MPU_MK_MASK c e.size % c.ulong_mod }

/-- The values written to `SCR_CSR_MPU_SEL` in a log, in order. -/
def sel_writes : List Event → List Nat
  | [] => []
  | Event.csr_write .SCR_CSR_MPU_SEL v :: rest => v :: sel_writes rest
  | _ :: rest => sel_writes rest

end ScrMpu

namespace ScrIpic

/-! ## Word-level lemmas -/

theorem ulong_mod_pos (c : Config) : 0 < c.ulong_mod := by
  unfold Config.ulong_mod; positivity

theorem int_mod_le_ulong_mod (c : Config) : INT_MOD ≤ c.ulong_mod := by
  unfold Config.ulong_mod INT_MOD
  cases c.xlen <;> simp [XLen.bits]

theorem bits_ge (c : Config) : 32 ≤ c.xlen.bits := by
  cases c.xlen <;> simp [XLen.bits]

theorem testBit_mod_ulong (c : Config) (x i : Nat) :
    (x % c.ulong_mod).testBit i = (decide (i < c.xlen.bits) && x.testBit i) := by
  unfold Config.ulong_mod
  exact Nat.testBit_mod_two_pow x c.xlen.bits i

theorem testBit_ulong_not (c : Config) (m i : Nat) (h : m < c.ulong_mod) :
    (ulong_not c m).testBit i = (decide (i < c.xlen.bits) && !m.testBit i) := by
  unfold ulong_not
  unfold Config.ulong_mod at *
  rw [Nat.sub_sub, Nat.add_comm 1 m]
  exact Nat.testBit_two_pow_sub_succ h i

theorem uint_to_ulong_mod (c : Config) (x : Nat) :
    uint_to_ulong x % c.ulong_mod = uint_to_ulong x := by
  apply Nat.mod_eq_of_lt
  have h1 : uint_to_ulong x < INT_MOD := Nat.mod_lt _ (by unfold INT_MOD; positivity)
  exact lt_of_lt_of_le h1 (int_mod_le_ulong_mod c)

theorem small_lt_ulong_mod (c : Config) (m : Nat) (h : m < 2 ^ 32) : m < c.ulong_mod :=
  lt_of_lt_of_le h (int_mod_le_ulong_mod c)

theorem reg_ne : IPIC_ICSR ≠ IPIC_IDX ∧ IPIC_SOI ≠ IPIC_IDX ∧ IPIC_SOI ≠ IPIC_ICSR ∧
    IPIC_EOI ≠ IPIC_IDX ∧ IPIC_EOI ≠ IPIC_ICSR ∧ IPIC_EOI ≠ IPIC_SOI ∧
    IPIC_CISV ≠ IPIC_IDX ∧ IPIC_CISV ≠ IPIC_ICSR := by decide

/-- The word `ipic_irq_disable` leaves in the selected line. -/
theorem disable_icsr (c : Config) (L : Nat) (m : Machine) :
    (riscv_ipic_irq_disable c L m).hw.icsr (uint_to_ulong L) =
      icsr_store c (m.hw.icsr (uint_to_ulong L)) ((m.hw.line_word c (uint_to_ulong L) &&&
        ulong_not c (IPIC_IRQ_ENABLE ||| IPIC_IRQ_PENDING)) % c.ulong_mod) := by
  simp [riscv_ipic_irq_disable, ipic_irq_disable, irq_lock, irq_unlock, csr_write, csr_read,
    Regs.write, Regs.read, Regs.line_word, reg_ne, uint_to_ulong_mod]

/-- The word `ipic_irq_enable` leaves in the selected line. -/
theorem enable_icsr (c : Config) (L : Nat) (m : Machine) :
    (riscv_ipic_irq_enable c L m).hw.icsr (uint_to_ulong L) =
      icsr_store c (m.hw.icsr (uint_to_ulong L)) (((m.hw.line_word c (uint_to_ulong L) &&&
        ulong_not c IPIC_IRQ_PENDING) ||| IPIC_IRQ_ENABLE) % c.ulong_mod) := by
  simp [riscv_ipic_irq_enable, ipic_irq_enable, irq_lock, irq_unlock, csr_write, csr_read,
    Regs.write, Regs.read, Regs.line_word, reg_ne, uint_to_ulong_mod]

/-- Bits of the word stored by a write to `IPIC_ICSR`. -/
theorem testBit_icsr_store (c : Config) (old v i : Nat) :
    (icsr_store c old v).testBit i =
      if v.testBit 0 then (decide (i < c.xlen.bits) && decide (i ≠ 0) && v.testBit i)
      else (v.testBit i || (decide (i = 0) && old.testBit 0)) := by
  have h1 : IPIC_IRQ_CLEAR_PENDING = 1 := by decide
  have h2 : IPIC_IRQ_PENDING = 1 := by decide
  have hb : (1 : Nat).testBit i = decide (i = 0) := by
    have := @Nat.testBit_two_pow 0 i
    simpa [eq_comm] using this
  unfold icsr_store
  rw [h1, h2, Nat.and_one_is_mod, Nat.testBit_zero]
  by_cases h : v % 2 = 1
  · simp only [h, ne_eq, one_ne_zero, not_false_eq_true, if_true, decide_True]
    rw [Nat.testBit_and, testBit_ulong_not c 1 i (small_lt_ulong_mod c 1 (by norm_num)), hb]
    cases v.testBit i <;> simp
  · have h0 : v % 2 = 0 := by omega
    simp only [h0, ne_eq, not_true_eq_false, if_false, zero_ne_one, decide_False,
      Bool.false_eq_true]
    rw [Nat.testBit_or, Nat.testBit_and, hb]
    by_cases hi : i = 0
    · subst hi; simp
    · simp [hi]

theorem testBit_enable (i : Nat) : IPIC_IRQ_ENABLE.testBit i = decide (i = 1) := by
  have := @Nat.testBit_two_pow 1 i
  have h : IPIC_IRQ_ENABLE = 2 ^ 1 := by decide
  rw [h, this]; simp [eq_comm]

theorem testBit_pending (i : Nat) : IPIC_IRQ_PENDING.testBit i = decide (i = 0) := by
  have := @Nat.testBit_two_pow 0 i
  have h : IPIC_IRQ_PENDING = 2 ^ 0 := by decide
  rw [h, this]; simp [eq_comm]

theorem testBit_enable_or_pending (i : Nat) :
    (IPIC_IRQ_ENABLE ||| IPIC_IRQ_PENDING).testBit i = (decide (i = 1) || decide (i = 0)) := by
  rw [Nat.testBit_or, testBit_enable, testBit_pending]

theorem testBit_line_word_ge (c : Config) (s : Regs) (l i : Nat) (h : c.xlen.bits ≤ i) :
    (s.line_word c l).testBit i = false := by
  unfold Regs.line_word
  rw [testBit_mod_ulong]
  simp; intro h'; omega

/-- Bit 0 of a line's word is bit 0 of the word as read. -/
theorem testBit_zero_line_word (c : Config) (s : Regs) (l : Nat) :
    (s.icsr l).testBit 0 = (s.line_word c l).testBit 0 := by
  have hb := bits_ge c
  unfold Regs.line_word
  rw [testBit_mod_ulong]
  have : 0 < c.xlen.bits := by omega
  simp [this]

/-- Bits of the word of a line after `riscv_ipic_irq_disable`. -/
theorem testBit_disable (c : Config) (L : Nat) (m : Machine) (i : Nat) :
    ((riscv_ipic_irq_disable c L m).hw.line_word c (uint_to_ulong L)).testBit i =
      (decide (i ≠ 1) && (m.hw.line_word c (uint_to_ulong L)).testBit i) := by
  have hlt : IPIC_IRQ_ENABLE ||| IPIC_IRQ_PENDING < c.ulong_mod :=
    small_lt_ulong_mod c _ (by decide)
  have hb := bits_ge c
  have hge := fun i h => testBit_line_word_ge c m.hw (uint_to_ulong L) i h
  conv_lhs => unfold Regs.line_word
  rw [disable_icsr, testBit_mod_ulong, testBit_icsr_store, testBit_zero_line_word c]
  generalize m.hw.line_word c (uint_to_ulong L) = w at hge ⊢
  simp only [testBit_mod_ulong, Nat.testBit_and, testBit_ulong_not c _ _ hlt,
    testBit_enable_or_pending]
  by_cases hi : i < c.xlen.bits
  · by_cases h0 : i = 0 <;> by_cases h1 : i = 1 <;> simp [hi, h0, h1]
    all_goals omega
  · rw [hge i (by omega)]
    simp [hi]

/-- Bits of the word of a line after `riscv_ipic_irq_enable`. -/
theorem testBit_enable_word (c : Config) (L : Nat) (m : Machine) (i : Nat) :
    ((riscv_ipic_irq_enable c L m).hw.line_word c (uint_to_ulong L)).testBit i =
      (decide (i = 1) || (m.hw.line_word c (uint_to_ulong L)).testBit i) := by
  have hlt : IPIC_IRQ_PENDING < c.ulong_mod := small_lt_ulong_mod c _ (by decide)
  have hb := bits_ge c
  have hge := fun i h => testBit_line_word_ge c m.hw (uint_to_ulong L) i h
  conv_lhs => unfold Regs.line_word
  rw [enable_icsr, testBit_mod_ulong, testBit_icsr_store, testBit_zero_line_word c]
  generalize m.hw.line_word c (uint_to_ulong L) = w at hge ⊢
  simp only [testBit_mod_ulong, Nat.testBit_and, Nat.testBit_or, testBit_ulong_not c _ _ hlt,
    testBit_enable, testBit_pending]
  by_cases hi : i < c.xlen.bits
  · by_cases h0 : i = 0 <;> by_cases h1 : i = 1 <;> simp [hi, h0, h1]
    all_goals omega
  · rw [hge i (by omega)]
    have h1 : i ≠ 1 := by omega
    simp [hi, h1]

/-- A non-negative `int` converts to `unsigned long` unchanged. -/
theorem int_to_ulong_nonneg (c : Config) (x : Nat) (h : x < 2 ^ 31) :
    int_to_ulong c x = x ∧ x % c.ulong_mod = x := by
  have h32 : x % INT_MOD = x := Nat.mod_eq_of_lt (by unfold INT_MOD; omega)
  have hu : x < c.ulong_mod := small_lt_ulong_mod c x (by omega)
  refine ⟨?_, Nat.mod_eq_of_lt hu⟩
  unfold int_to_ulong int_is_neg
  rw [h32]
  have hn : ¬ (2 ^ 31 ≤ x) := by omega
  rw [decide_eq_false hn]
  simp

/-- The configuration word is a non-negative `int` when its operands are small. -/
theorem MK_IRQ_CFG_lt (l mode flags : Nat) (hl : l < 2 ^ 19) (hm : mode < 2 ^ 12)
    (hf : flags < 2 ^ 12) : MK_IRQ_CFG l mode flags < 2 ^ 31 := by
  have h1 : l <<< IPIC_IRQ_LN_OFFS < 2 ^ 31 := by
    rw [Nat.shiftLeft_eq]; unfold IPIC_IRQ_LN_OFFS; omega
  unfold MK_IRQ_CFG INT_MOD
  rw [Nat.mod_eq_of_lt (by omega : mode < 2 ^ 32), Nat.mod_eq_of_lt (by omega : flags < 2 ^ 32),
    Nat.mod_eq_of_lt (by omega : l <<< IPIC_IRQ_LN_OFFS < 2 ^ 32)]
  exact Nat.or_lt_two_pow (Nat.or_lt_two_pow (by omega) (by omega)) h1

/-- Bits of the configuration word when its operands are small. -/
theorem testBit_MK_IRQ_CFG (l mode flags i : Nat) (hl : l < 2 ^ 19) (hm : mode < 2 ^ 12)
    (hf : flags < 2 ^ 12) :
    (MK_IRQ_CFG l mode flags).testBit i =
      (mode.testBit i || flags.testBit i || (decide (12 ≤ i) && l.testBit (i - 12))) := by
  have h1 : l <<< IPIC_IRQ_LN_OFFS < 2 ^ 31 := by
    rw [Nat.shiftLeft_eq]; unfold IPIC_IRQ_LN_OFFS; omega
  unfold MK_IRQ_CFG INT_MOD
  rw [Nat.mod_eq_of_lt (by omega : mode < 2 ^ 32), Nat.mod_eq_of_lt (by omega : flags < 2 ^ 32),
    Nat.mod_eq_of_lt (by omega : l <<< IPIC_IRQ_LN_OFFS < 2 ^ 32)]
  simp [Nat.testBit_or, Nat.testBit_shiftLeft, IPIC_IRQ_LN_OFFS]

/-- The word `ipic_irq_setup` leaves in the line it selected. -/
theorem setup_icsr (c : Config) (v l mode flags : Nat) (m : Machine) :
    Regs.read c IPIC_ICSR (ipic_irq_setup c v l mode flags m).2.hw =
      icsr_store c (m.hw.icsr (ipic_irq_setup c v l mode flags m).2.hw.idx)
        (int_to_ulong c (MK_IRQ_CFG l mode (flags ||| IPIC_IRQ_CLEAR_PENDING))
          % c.ulong_mod) % c.ulong_mod := by
  simp [ipic_irq_setup, csr_write, Regs.write, Regs.read, reg_ne]

theorem testBit_mode_mask (i : Nat) :
    IPIC_IRQ_MODE_MASK.testBit i = (decide (i = 2) || decide (i = 3)) := by
  have h : IPIC_IRQ_MODE_MASK = 2 ^ 2 ||| 2 ^ 3 := by decide
  rw [h, Nat.testBit_or, Nat.testBit_two_pow, Nat.testBit_two_pow]
  simp [eq_comm]

theorem testBit_priv_mask (i : Nat) :
    IPIC_IRQ_PRIV_MASK.testBit i = (decide (i = 8) || decide (i = 9)) := by
  have h : IPIC_IRQ_PRIV_MASK = 2 ^ 8 ||| 2 ^ 9 := by decide
  rw [h, Nat.testBit_or, Nat.testBit_two_pow, Nat.testBit_two_pow]
  simp [eq_comm]

/-- Bits of the word `ipic_irq_setup` leaves in the line it selected, for small operands. -/
theorem testBit_setup (c : Config) (v l mode flags : Nat) (m : Machine) (i : Nat)
    (hl : l < 2 ^ 19) (hm : mode < 2 ^ 12) (hf : flags < 2 ^ 12) :
    (Regs.read c IPIC_ICSR (ipic_irq_setup c v l mode flags m).2.hw).testBit i =
      (decide (i ≠ 0) &&
        (mode.testBit i || flags.testBit i || (decide (12 ≤ i) && l.testBit (i - 12)))) := by
  have hf1 : flags ||| IPIC_IRQ_CLEAR_PENDING < 2 ^ 12 :=
    Nat.or_lt_two_pow hf (by decide)
  have hX := MK_IRQ_CFG_lt l mode _ hl hm hf1
  have hb := bits_ge c
  have h0 : (MK_IRQ_CFG l mode (flags ||| IPIC_IRQ_CLEAR_PENDING)).testBit 0 = true := by
    rw [testBit_MK_IRQ_CFG l mode _ 0 hl hm hf1, Nat.testBit_or]
    have : IPIC_IRQ_CLEAR_PENDING.testBit 0 = true := by decide
    simp [this]
  rw [setup_icsr, (int_to_ulong_nonneg c _ hX).1, (int_to_ulong_nonneg c _ hX).2,
    testBit_mod_ulong, testBit_icsr_store, h0]
  simp only [if_true]
  by_cases hi : i < c.xlen.bits
  · rw [testBit_MK_IRQ_CFG l mode _ i hl hm hf1, Nat.testBit_or]
    have hcp : IPIC_IRQ_CLEAR_PENDING.testBit i = decide (i = 0) := testBit_pending i
    rw [hcp]
    by_cases hz : i = 0 <;> simp [hi, hz]
  · have hge : 2 ^ 31 ≤ 2 ^ i := Nat.pow_le_pow_right (by norm_num) (by omega)
    have hlt : ∀ x, x < 2 ^ 12 → x.testBit i = false := fun x hx =>
      Nat.testBit_lt_two_pow (by omega)
    have hl' : l.testBit (i - 12) = false := by
      apply Nat.testBit_lt_two_pow
      have : 2 ^ 19 ≤ 2 ^ (i - 12) := Nat.pow_le_pow_right (by norm_num) (by omega)
      omega
    simp [hi, hlt mode hm, hlt flags hf, hl']

/-- The index `ipic_irq_setup` leaves in the select register. -/
theorem setup_idx (c : Config) (v l mode flags : Nat) (m : Machine) :
    (ipic_irq_setup c v l mode flags m).2.hw.idx =
      int_to_ulong c (ipic_irq_setup c v l mode flags m).1 % c.ulong_mod := by
  simp [ipic_irq_setup, csr_write, Regs.write, reg_ne]

/-- With dynamic line mapping `ipic_irq_reset(L)` selects line `L` and leaves it disabled,
not pending, mapped to the void line and restricted to machine mode. -/
theorem ipic_irq_reset_dynamic (c : Config) (L : Nat) (m : Machine)
    (hs : c.static_line_mapping = false) (hL : L < c.ln_num) (hN : c.ln_num < 2 ^ 19) :
    (ipic_irq_reset c L m).hw.idx = L ∧
    ((ipic_irq_reset c L m).hw.line_word c L).testBit 1 = false ∧
    ((ipic_irq_reset c L m).hw.line_word c L).testBit 0 = false ∧
    (ipic_irq_reset c L m).hw.line_word c L >>> IPIC_IRQ_LN_OFFS = IPIC_IRQ_LN_VOID c ∧
    (ipic_irq_reset c L m).hw.line_word c L &&& IPIC_IRQ_PRIV_MASK = IPIC_IRQ_PRIV_MMODE := by
  have hL31 : L < 2 ^ 31 := by omega
  have hidx : (ipic_irq_reset c L m).hw.idx = L := by
    unfold ipic_irq_reset
    rw [setup_idx]
    have h1 : (ipic_irq_setup c L (IPIC_IRQ_LN_VOID c) IPIC_IRQ_PRIV_MMODE
        IPIC_IRQ_CLEAR_PENDING m).1 = L := by
      have hn : int_is_neg L = false := by
        unfold int_is_neg INT_MOD
        rw [Nat.mod_eq_of_lt (by omega)]
        exact decide_eq_false (by omega)
      simp only [ipic_irq_setup, hs, hn, Bool.or_false, Bool.false_eq_true, if_false]
      exact Nat.mod_eq_of_lt (by unfold INT_MOD; omega)
    rw [h1, (int_to_ulong_nonneg c L hL31).1, (int_to_ulong_nonneg c L hL31).2]
  have hw : (ipic_irq_reset c L m).hw.line_word c L =
      Regs.read c IPIC_ICSR (ipic_irq_reset c L m).hw := by
    simp [Regs.read, Regs.line_word, reg_ne, hidx]
  have hbit : ∀ i, ((ipic_irq_reset c L m).hw.line_word c L).testBit i =
      (decide (i ≠ 0) && (IPIC_IRQ_PRIV_MMODE.testBit i || IPIC_IRQ_CLEAR_PENDING.testBit i ||
        (decide (12 ≤ i) && (IPIC_IRQ_LN_VOID c).testBit (i - 12)))) := by
    intro i
    rw [hw]
    exact testBit_setup c L (IPIC_IRQ_LN_VOID c) IPIC_IRQ_PRIV_MMODE IPIC_IRQ_CLEAR_PENDING m i
      hN (by decide) (by decide)
  have hmm : ∀ i, IPIC_IRQ_PRIV_MMODE.testBit i = (decide (i = 8) || decide (i = 9)) :=
    testBit_priv_mask
  have hcp : ∀ i, IPIC_IRQ_CLEAR_PENDING.testBit i = decide (i = 0) := testBit_pending
  refine ⟨hidx, ?_, ?_, ?_, ?_⟩
  · rw [hbit, hmm, hcp]; simp
  · rw [hbit]; simp
  · apply Nat.eq_of_testBit_eq
    intro j
    rw [Nat.testBit_shiftRight, hbit, hmm, hcp]
    have h1 : IPIC_IRQ_LN_OFFS + j ≠ 0 := by unfold IPIC_IRQ_LN_OFFS; omega
    have h2 : IPIC_IRQ_LN_OFFS + j ≠ 8 := by unfold IPIC_IRQ_LN_OFFS; omega
    have h3 : IPIC_IRQ_LN_OFFS + j ≠ 9 := by unfold IPIC_IRQ_LN_OFFS; omega
    have h4 : 12 ≤ IPIC_IRQ_LN_OFFS + j := by unfold IPIC_IRQ_LN_OFFS; omega
    have h5 : IPIC_IRQ_LN_OFFS + j - 12 = j := by unfold IPIC_IRQ_LN_OFFS; omega
    simp [h1, h2, h3, h4, h5]
  · apply Nat.eq_of_testBit_eq
    intro i
    rw [Nat.testBit_and, hbit, hmm, hcp, testBit_priv_mask]
    by_cases h8 : i = 8
    · subst h8; simp
    · by_cases h9 : i = 9
      · subst h9; simp
      · simp [h8, h9]

/-! ## Line configuration -/

/-- C1: with static line mapping, `ipic_irq_reset(0)` on a 16-line controller whose line 0 is
enabled and pending selects index 16 (`IPIC_IRQ_LN_VOID`) and writes the reset word there;
the word of line 0 is not written and still has its enable and pending bits set. -/
theorem ipic_irq_reset_static_misses_line :
    (ipic_irq_reset ⟨XLen.rv32, true, 16, 0⟩ 0
        ⟨⟨0, fun _ => IPIC_IRQ_ENABLE ||| IPIC_IRQ_PENDING, [], 16, true⟩, []⟩).trace =
      [Event.csr_write IPIC_IDX 16, Event.csr_write IPIC_ICSR 0x10301] ∧
    ((ipic_irq_reset ⟨XLen.rv32, true, 16, 0⟩ 0
        ⟨⟨0, fun _ => IPIC_IRQ_ENABLE ||| IPIC_IRQ_PENDING, [], 16, true⟩, []⟩).hw.line_word
          ⟨XLen.rv32, true, 16, 0⟩ 0).testBit 1 = true ∧
    ((ipic_irq_reset ⟨XLen.rv32, true, 16, 0⟩ 0
        ⟨⟨0, fun _ => IPIC_IRQ_ENABLE ||| IPIC_IRQ_PENDING, [], 16, true⟩, []⟩).hw.line_word
          ⟨XLen.rv32, true, 16, 0⟩ 0).testBit 0 = true := by
  decide

/-- C2 (as stated, refuted): on a line whose word is 1 (pending, not enabled)
`riscv_ipic_irq_enable(3)` writes the word 2 to `IPIC_ICSR`: the pending bit, set in the
word read, is written back clear, so the written word differs from the word read in more
than the enable bit. -/
theorem riscv_ipic_irq_enable_drops_pending :
    Regs.line_word ⟨XLen.rv32, false, 16, 0⟩ ⟨0, fun _ => 1, [], 16, true⟩ 3 = 1 ∧
    (riscv_ipic_irq_enable ⟨XLen.rv32, false, 16, 0⟩ 3
        ⟨⟨0, fun _ => 1, [], 16, true⟩, []⟩).trace =
      [Event.irq_lock, Event.csr_write IPIC_IDX 3, Event.csr_read IPIC_ICSR,
       Event.csr_write IPIC_ICSR 2, Event.irq_unlock 1] ∧
    Nat.testBit 2 0 ≠ Nat.testBit 1 0 := by
  decide

/-- C2 (amended): `riscv_ipic_irq_enable(L)` selects `L`, reads the word `w` of `L` and
writes back to `IPIC_ICSR` one word, in which the enable bit is set, the pending bit is
clear, and every bit from bit 2 up is the bit of `w`. -/
theorem riscv_ipic_irq_enable_written_word (c : Config) (L : Nat) (m : Machine) :
    (riscv_ipic_irq_enable c L m).trace =
      m.trace ++ [Event.irq_lock, Event.csr_write IPIC_IDX (uint_to_ulong L),
        Event.csr_read IPIC_ICSR,
        Event.csr_write IPIC_ICSR
          (((m.hw.line_word c (uint_to_ulong L) &&& ulong_not c IPIC_IRQ_PENDING) |||
            IPIC_IRQ_ENABLE) % c.ulong_mod),
        Event.irq_unlock (if m.hw.mie then 1 else 0)] ∧
    (((m.hw.line_word c (uint_to_ulong L) &&& ulong_not c IPIC_IRQ_PENDING) |||
        IPIC_IRQ_ENABLE) % c.ulong_mod).testBit 1 = true ∧
    (((m.hw.line_word c (uint_to_ulong L) &&& ulong_not c IPIC_IRQ_PENDING) |||
        IPIC_IRQ_ENABLE) % c.ulong_mod).testBit 0 = false ∧
    ∀ i, (((m.hw.line_word c (uint_to_ulong L) &&& ulong_not c IPIC_IRQ_PENDING) |||
        IPIC_IRQ_ENABLE) % c.ulong_mod).testBit (i + 2) =
      (m.hw.line_word c (uint_to_ulong L)).testBit (i + 2) := by
  have hlt : IPIC_IRQ_PENDING < c.ulong_mod := small_lt_ulong_mod c _ (by decide)
  have hb := bits_ge c
  have hbit : ∀ i, (((m.hw.line_word c (uint_to_ulong L) &&& ulong_not c IPIC_IRQ_PENDING) |||
        IPIC_IRQ_ENABLE) % c.ulong_mod).testBit i =
      (decide (i = 1) || (decide (i ≠ 0) && (m.hw.line_word c (uint_to_ulong L)).testBit i)) := by
    intro i
    simp only [testBit_mod_ulong, Nat.testBit_and, Nat.testBit_or, testBit_ulong_not c _ _ hlt,
      testBit_enable, testBit_pending]
    by_cases hi : i < c.xlen.bits
    · by_cases h0 : i = 0 <;> by_cases h1 : i = 1 <;> simp [hi, h0, h1]
      omega
    · rw [testBit_line_word_ge c m.hw _ i (by omega)]
      have h1 : i ≠ 1 := by omega
      simp [hi, h1]
  refine ⟨?_, ?_, ?_, ?_⟩
  · simp [riscv_ipic_irq_enable, ipic_irq_enable, irq_lock, irq_unlock, csr_write, csr_read,
      Regs.write, Regs.read, Regs.line_word, reg_ne, uint_to_ulong_mod]
  · rw [hbit]; simp
  · rw [hbit]; simp
  · intro i; rw [hbit]; simp

/-- C3 (as stated, refuted): on a line whose word is 3 (enabled and pending)
`riscv_ipic_irq_disable(3)` writes the word 0 to `IPIC_ICSR`; the written bit 0 is not the
command `IPIC_IRQ_CLEAR_PENDING`, so the latched pending flag is still set after the call:
the word of the line is 1. -/
theorem riscv_ipic_irq_disable_leaves_pending :
    (Regs.line_word ⟨XLen.rv32, false, 16, 0⟩ ⟨0, fun _ => 3, [], 16, true⟩ 3).testBit 0 = true ∧
    (riscv_ipic_irq_disable ⟨XLen.rv32, false, 16, 0⟩ 3
        ⟨⟨0, fun _ => 3, [], 16, true⟩, []⟩).trace =
      [Event.irq_lock, Event.csr_write IPIC_IDX 3, Event.csr_read IPIC_ICSR,
       Event.csr_write IPIC_ICSR 0, Event.irq_unlock 1] ∧
    (riscv_ipic_irq_disable ⟨XLen.rv32, false, 16, 0⟩ 3
        ⟨⟨0, fun _ => 3, [], 16, true⟩, []⟩).hw.line_word ⟨XLen.rv32, false, 16, 0⟩ 3 = 1 ∧
    ((riscv_ipic_irq_disable ⟨XLen.rv32, false, 16, 0⟩ 3
        ⟨⟨0, fun _ => 3, [], 16, true⟩, []⟩).hw.line_word
          ⟨XLen.rv32, false, 16, 0⟩ 3).testBit 0 = true := by
  decide

/-- C3 (amended): `riscv_ipic_irq_disable(L)` selects `L`, reads the word `w` of `L` and
writes back one word, in which the enable bit and the pending bit are 0 and every bit from
bit 2 up is the bit of `w`; after the call the word of `L` has the enable bit clear, the
pending bit as it was in `w` (the call issues no clear-pending command), and every bit from
bit 2 up equal to the bit of `w`. -/
theorem riscv_ipic_irq_disable_word (c : Config) (L : Nat) (m : Machine) :
    (riscv_ipic_irq_disable c L m).trace =
      m.trace ++ [Event.irq_lock, Event.csr_write IPIC_IDX (uint_to_ulong L),
        Event.csr_read IPIC_ICSR,
        Event.csr_write IPIC_ICSR
          ((m.hw.line_word c (uint_to_ulong L) &&&
            ulong_not c (IPIC_IRQ_ENABLE ||| IPIC_IRQ_PENDING)) % c.ulong_mod),
        Event.irq_unlock (if m.hw.mie then 1 else 0)] ∧
    ((m.hw.line_word c (uint_to_ulong L) &&&
        ulong_not c (IPIC_IRQ_ENABLE ||| IPIC_IRQ_PENDING)) % c.ulong_mod).testBit 1 = false ∧
    ((m.hw.line_word c (uint_to_ulong L) &&&
        ulong_not c (IPIC_IRQ_ENABLE ||| IPIC_IRQ_PENDING)) % c.ulong_mod).testBit 0 = false ∧
    (∀ i, ((m.hw.line_word c (uint_to_ulong L) &&&
        ulong_not c (IPIC_IRQ_ENABLE ||| IPIC_IRQ_PENDING)) % c.ulong_mod).testBit (i + 2) =
      (m.hw.line_word c (uint_to_ulong L)).testBit (i + 2)) ∧
    ((riscv_ipic_irq_disable c L m).hw.line_word c (uint_to_ulong L)).testBit 1 = false ∧
    ((riscv_ipic_irq_disable c L m).hw.line_word c (uint_to_ulong L)).testBit 0 =
      (m.hw.line_word c (uint_to_ulong L)).testBit 0 ∧
    ∀ i, ((riscv_ipic_irq_disable c L m).hw.line_word c (uint_to_ulong L)).testBit (i + 2) =
      (m.hw.line_word c (uint_to_ulong L)).testBit (i + 2) := by
  have hlt : IPIC_IRQ_ENABLE ||| IPIC_IRQ_PENDING < c.ulong_mod :=
    small_lt_ulong_mod c _ (by decide)
  have hb := bits_ge c
  have hge := fun i h => testBit_line_word_ge c m.hw (uint_to_ulong L) i h
  have hbit : ∀ i, ((m.hw.line_word c (uint_to_ulong L) &&&
        ulong_not c (IPIC_IRQ_ENABLE ||| IPIC_IRQ_PENDING)) % c.ulong_mod).testBit i =
      (decide (i ≠ 0) && decide (i ≠ 1) && (m.hw.line_word c (uint_to_ulong L)).testBit i) := by
    intro i
    generalize m.hw.line_word c (uint_to_ulong L) = w at hge ⊢
    simp only [testBit_mod_ulong, Nat.testBit_and, testBit_ulong_not c _ _ hlt,
      testBit_enable_or_pending]
    by_cases hi : i < c.xlen.bits
    · by_cases h0 : i = 0 <;> by_cases h1 : i = 1 <;> simp [hi, h0, h1]
    · rw [hge i (by omega)]
      simp [hi]
  refine ⟨?_, ?_, ?_, ?_, ?_, ?_, ?_⟩
  · simp [riscv_ipic_irq_disable, ipic_irq_disable, irq_lock, irq_unlock, csr_write, csr_read,
      Regs.write, Regs.read, Regs.line_word, reg_ne, uint_to_ulong_mod]
  · rw [hbit]; simp
  · rw [hbit]; simp
  · intro i; rw [hbit]; simp
  · rw [testBit_disable]; simp
  · rw [testBit_disable]; simp
  · intro i; rw [testBit_disable]; simp

/-- C4: `riscv_ipic_irq_enable(L)` followed by `riscv_ipic_irq_disable(L)` leaves the
trigger-mode bits (`IPIC_IRQ_MODE_MASK`) and the privilege bits (`IPIC_IRQ_PRIV_MASK`) of the
word of line `L` as they were before the two calls. -/
theorem enable_then_disable_keeps_mode_priv (c : Config) (L : Nat) (m : Machine) :
    (riscv_ipic_irq_disable c L (riscv_ipic_irq_enable c L m)).hw.line_word c (uint_to_ulong L)
        &&& IPIC_IRQ_MODE_MASK =
      m.hw.line_word c (uint_to_ulong L) &&& IPIC_IRQ_MODE_MASK ∧
    (riscv_ipic_irq_disable c L (riscv_ipic_irq_enable c L m)).hw.line_word c (uint_to_ulong L)
        &&& IPIC_IRQ_PRIV_MASK =
      m.hw.line_word c (uint_to_ulong L) &&& IPIC_IRQ_PRIV_MASK := by
  constructor
  · apply Nat.eq_of_testBit_eq
    intro i
    rw [Nat.testBit_and, Nat.testBit_and, testBit_disable, testBit_enable_word,
      testBit_mode_mask]
    by_cases h2 : i = 2
    · subst h2; simp
    · by_cases h3 : i = 3
      · subst h3; simp
      · simp [h2, h3]
  · apply Nat.eq_of_testBit_eq
    intro i
    rw [Nat.testBit_and, Nat.testBit_and, testBit_disable, testBit_enable_word,
      testBit_priv_mask]
    by_cases h8 : i = 8
    · subst h8; simp
    · by_cases h9 : i = 9
      · subst h9; simp
      · simp [h8, h9]

/-- C5: for a line number `l` that fits the line field, a trigger mode `m` within
`IPIC_IRQ_MODE_MASK` and a privilege `p` within `IPIC_IRQ_PRIV_MASK`, after
`ipic_irq_setup(v, l, m | p, 0)` a read of `IPIC_ICSR` (the word of the index the call
selected) returns line field `l`, trigger mode `m`, privilege `p`, enable bit clear and
pending bit clear; this holds for every index `v`. -/
theorem ipic_irq_setup_roundtrip (c : Config) (v l m p : Nat) (mach : Machine)
    (hl : l < 2 ^ 19) (hm : m &&& IPIC_IRQ_MODE_MASK = m) (hp : p &&& IPIC_IRQ_PRIV_MASK = p) :
    (ipic_irq_setup c v l (m ||| p) 0 mach).2.hw.idx =
      int_to_ulong c (ipic_irq_setup c v l (m ||| p) 0 mach).1 % c.ulong_mod ∧
    Regs.read c IPIC_ICSR (ipic_irq_setup c v l (m ||| p) 0 mach).2.hw >>> IPIC_IRQ_LN_OFFS = l ∧
    Regs.read c IPIC_ICSR (ipic_irq_setup c v l (m ||| p) 0 mach).2.hw &&& IPIC_IRQ_MODE_MASK
      = m ∧
    Regs.read c IPIC_ICSR (ipic_irq_setup c v l (m ||| p) 0 mach).2.hw &&& IPIC_IRQ_PRIV_MASK
      = p ∧
    (Regs.read c IPIC_ICSR (ipic_irq_setup c v l (m ||| p) 0 mach).2.hw).testBit 1 = false ∧
    (Regs.read c IPIC_ICSR (ipic_irq_setup c v l (m ||| p) 0 mach).2.hw).testBit 0 = false := by
  have hm12 : m < 2 ^ 12 := by
    have h1 : m ≤ IPIC_IRQ_MODE_MASK := hm ▸ Nat.and_le_right
    have h2 : IPIC_IRQ_MODE_MASK = 12 := by decide
    omega
  have hp12 : p < 2 ^ 12 := by
    have h1 : p ≤ IPIC_IRQ_PRIV_MASK := hp ▸ Nat.and_le_right
    have h2 : IPIC_IRQ_PRIV_MASK = 768 := by decide
    omega
  have hmp : m ||| p < 2 ^ 12 := Nat.or_lt_two_pow hm12 hp12
  have hmb : ∀ i, m.testBit i = (m.testBit i && (decide (i = 2) || decide (i = 3))) := by
    intro i
    conv_lhs => rw [← hm]
    rw [Nat.testBit_and, testBit_mode_mask]
  have hpb : ∀ i, p.testBit i = (p.testBit i && (decide (i = 8) || decide (i = 9))) := by
    intro i
    conv_lhs => rw [← hp]
    rw [Nat.testBit_and, testBit_priv_mask]
  have hbit : ∀ i, (Regs.read c IPIC_ICSR (ipic_irq_setup c v l (m ||| p) 0 mach).2.hw).testBit i
      = (decide (i ≠ 0) && (m.testBit i || p.testBit i ||
          (decide (12 ≤ i) && l.testBit (i - 12)))) := by
    intro i
    rw [testBit_setup c v l (m ||| p) 0 mach i hl hmp (by norm_num), Nat.testBit_or]
    simp
  refine ⟨setup_idx c v l (m ||| p) 0 mach, ?_, ?_, ?_, ?_, ?_⟩
  · apply Nat.eq_of_testBit_eq
    intro j
    rw [Nat.testBit_shiftRight, hbit, hmb, hpb]
    have h1 : IPIC_IRQ_LN_OFFS + j ≠ 0 := by unfold IPIC_IRQ_LN_OFFS; omega
    have h2 : IPIC_IRQ_LN_OFFS + j ≠ 2 := by unfold IPIC_IRQ_LN_OFFS; omega
    have h3 : IPIC_IRQ_LN_OFFS + j ≠ 3 := by unfold IPIC_IRQ_LN_OFFS; omega
    have h8 : IPIC_IRQ_LN_OFFS + j ≠ 8 := by unfold IPIC_IRQ_LN_OFFS; omega
    have h9 : IPIC_IRQ_LN_OFFS + j ≠ 9 := by unfold IPIC_IRQ_LN_OFFS; omega
    have h4 : 12 ≤ IPIC_IRQ_LN_OFFS + j := by unfold IPIC_IRQ_LN_OFFS; omega
    have h5 : IPIC_IRQ_LN_OFFS + j - 12 = j := by unfold IPIC_IRQ_LN_OFFS; omega
    simp [h1, h2, h3, h4, h5, h8, h9]
  · apply Nat.eq_of_testBit_eq
    intro i
    rw [Nat.testBit_and, hbit, testBit_mode_mask, hmb i, hpb i]
    by_cases h2 : i = 2
    · subst h2; simp
    · by_cases h3 : i = 3
      · subst h3; simp
      · simp [h2, h3]
  · apply Nat.eq_of_testBit_eq
    intro i
    rw [Nat.testBit_and, hbit, testBit_priv_mask, hmb i, hpb i]
    by_cases h8 : i = 8
    · subst h8; simp
    · by_cases h9 : i = 9
      · subst h9; simp
      · simp [h8, h9]
  · rw [hbit, hmb, hpb]; simp
  · rw [hbit]; simp

/-- C5 at a concrete call: `ipic_irq_setup(2, 5, IPIC_IRQ_EDGE | IPIC_IRQ_PRIV_SMODE, 0)`
on a 64-bit core with dynamic mapping. -/
theorem ipic_irq_setup_roundtrip_witness :
    (5 < 2 ^ 19 ∧ IPIC_IRQ_EDGE &&& IPIC_IRQ_MODE_MASK = IPIC_IRQ_EDGE ∧
      IPIC_IRQ_PRIV_SMODE &&& IPIC_IRQ_PRIV_MASK = IPIC_IRQ_PRIV_SMODE) ∧
    Regs.read ⟨XLen.rv64, false, 16, 0⟩ IPIC_ICSR
      (ipic_irq_setup ⟨XLen.rv64, false, 16, 0⟩ 2 5 (IPIC_IRQ_EDGE ||| IPIC_IRQ_PRIV_SMODE) 0
        ⟨⟨0, fun _ => 0, [], 16, true⟩, []⟩).2.hw >>> IPIC_IRQ_LN_OFFS = 5 :=
  ⟨by decide,
   (ipic_irq_setup_roundtrip ⟨XLen.rv64, false, 16, 0⟩ 2 5 IPIC_IRQ_EDGE IPIC_IRQ_PRIV_SMODE
      ⟨⟨0, fun _ => 0, [], 16, true⟩, []⟩ (by decide) (by decide) (by decide)).2.1⟩

/-! ## Query and dispatch -/

/-- C6: on a controller where line 1 is enabled (enable bit of its word set) and line 2 is
the vector in service, `riscv_ipic_irq_is_enabled(1)` returns 0; and where line 1 is not
enabled but is the vector in service, it returns 1. -/
theorem riscv_ipic_irq_is_enabled_ignores_enable_bit :
    ((Regs.line_word ⟨XLen.rv32, false, 16, 0⟩
        ⟨0, fun _ => IPIC_IRQ_ENABLE, [2], 16, true⟩ 1).testBit 1 = true ∧
      (riscv_ipic_irq_is_enabled ⟨XLen.rv32, false, 16, 0⟩ 1
        ⟨⟨0, fun _ => IPIC_IRQ_ENABLE, [2], 16, true⟩, []⟩).1 = 0) ∧
    ((Regs.line_word ⟨XLen.rv32, false, 16, 0⟩ ⟨0, fun _ => 0, [1], 16, true⟩ 1).testBit 1
        = false ∧
      (riscv_ipic_irq_is_enabled ⟨XLen.rv32, false, 16, 0⟩ 1
        ⟨⟨0, fun _ => 0, [1], 16, true⟩, []⟩).1 = 1) := by
  decide

/-- The run of `scr_ipic_irq_handler` when the entry it looks up has a handler. -/
theorem scr_ipic_irq_handler_run (c : Config) (tbl : Nat → IsrTableEntry) (a : Nat)
    (m : Machine) (h : Nat → Regs → Regs)
    (hh : (tbl ((Regs.read c IPIC_CISV (Regs.write c IPIC_SOI 0 m.hw) + c.isr_tbl_offset)
      % c.ulong_mod)).isr = some h) :
    scr_ipic_irq_handler c tbl a m = some
      { hw := Regs.write c IPIC_EOI 0
          (h (tbl ((Regs.read c IPIC_CISV (Regs.write c IPIC_SOI 0 m.hw) + c.isr_tbl_offset)
              % c.ulong_mod)).arg (Regs.write c IPIC_SOI 0 m.hw)),
        trace := m.trace ++ [Event.csr_write IPIC_SOI 0, Event.csr_read IPIC_CISV,
          Event.isr_call ((Regs.read c IPIC_CISV (Regs.write c IPIC_SOI 0 m.hw)
              + c.isr_tbl_offset) % c.ulong_mod)
            (tbl ((Regs.read c IPIC_CISV (Regs.write c IPIC_SOI 0 m.hw) + c.isr_tbl_offset)
              % c.ulong_mod)).arg,
          Event.csr_write IPIC_EOI 0] } := by
  simp [scr_ipic_irq_handler, ipic_soi, ipic_irq_current_vector, ipic_eoi, isr_invoke,
    csr_write, csr_read, hh]

/-- The vector a start of service resolves is the one the arbiter chose. -/
theorem soi_resolves (c : Config) (s : Regs) (v : Nat) (hv : s.arb = v)
    (hreal : v < IPIC_VOID_VEC) :
    Regs.read c IPIC_CISV (Regs.write c IPIC_SOI 0 s) = v := by
  have hlt : v < c.ulong_mod := small_lt_ulong_mod c v (by unfold IPIC_VOID_VEC at hreal; omega)
  simp [Regs.read, Regs.write, reg_ne, hv, Nat.mod_eq_of_lt hlt]

/-- C7: when the start of service resolves a real vector `v` and the entry of
`_sw_isr_table` at index `v + CONFIG_2ND_LVL_ISR_TBL_OFFSET` (an `unsigned long` sum) has the
handler `h`, a run of `scr_ipic_irq_handler` returns, and what it did is, in this order and
nothing else: one write of `IPIC_SOI`, the read of `IPIC_CISV`, one call of `h` through
that entry with the argument registered in it, one write of `IPIC_EOI`. -/
theorem scr_ipic_irq_handler_dispatch (c : Config) (tbl : Nat → IsrTableEntry) (a : Nat)
    (m : Machine) (v : Nat) (h : Nat → Regs → Regs)
    (hv : m.hw.arb = v) (hreal : v < IPIC_VOID_VEC)
    (hh : (tbl ((v + c.isr_tbl_offset) % c.ulong_mod)).isr = some h) :
    scr_ipic_irq_handler c tbl a m = some
      { hw := Regs.write c IPIC_EOI 0
          (h (tbl ((v + c.isr_tbl_offset) % c.ulong_mod)).arg (Regs.write c IPIC_SOI 0 m.hw)),
        trace := m.trace ++ [Event.csr_write IPIC_SOI 0, Event.csr_read IPIC_CISV,
          Event.isr_call ((v + c.isr_tbl_offset) % c.ulong_mod)
            (tbl ((v + c.isr_tbl_offset) % c.ulong_mod)).arg,
          Event.csr_write IPIC_EOI 0] } := by
  have hs := soi_resolves c m.hw v hv hreal
  have := scr_ipic_irq_handler_run c tbl a m h (by rw [hs]; exact hh)
  rw [hs] at this
  exact this

/-- C7 at a concrete state: vector 3 resolved, offset 12, handler registered at entry 15
with argument 42. -/
theorem scr_ipic_irq_handler_dispatch_witness :
    ((3 : Nat) = 3 ∧ 3 < IPIC_VOID_VEC) ∧
    (scr_ipic_irq_handler ⟨XLen.rv32, false, 16, 12⟩
        (fun i => if i = 15 then ⟨42, some (fun _ s => s)⟩ else ⟨0, none⟩) 0
        ⟨⟨0, fun _ => 0, [], 3, false⟩, []⟩).map Machine.trace =
      some [Event.csr_write IPIC_SOI 0, Event.csr_read IPIC_CISV, Event.isr_call 15 42,
        Event.csr_write IPIC_EOI 0] :=
  ⟨by decide, by
    rw [scr_ipic_irq_handler_dispatch ⟨XLen.rv32, false, 16, 12⟩
      (fun i => if i = 15 then ⟨42, some (fun _ s => s)⟩ else ⟨0, none⟩) 0
      ⟨⟨0, fun _ => 0, [], 3, false⟩, []⟩ 3 (fun _ s => s) rfl (by decide) rfl]
    rfl⟩

/-- C8: on a controller with no ready line (the arbiter resolves `IPIC_VOID_VEC` = 16), with
offset 0 and a handler registered at entry 16 with argument 7, a run of
`scr_ipic_irq_handler` calls that handler between the start and the end of service; and
with no handler at entry 16 the run faults in the call and no end of service is issued. -/
theorem scr_ipic_irq_handler_void_vector_calls :
    (scr_ipic_irq_handler ⟨XLen.rv32, false, 16, 0⟩
        (fun i => if i = 16 then ⟨7, some (fun _ s => s)⟩ else ⟨0, none⟩) 0
        ⟨⟨0, fun _ => 0, [], IPIC_VOID_VEC, false⟩, []⟩).map Machine.trace =
      some [Event.csr_write IPIC_SOI 0, Event.csr_read IPIC_CISV, Event.isr_call 16 7,
        Event.csr_write IPIC_EOI 0] ∧
    (scr_ipic_irq_handler ⟨XLen.rv32, false, 16, 0⟩ (fun _ => ⟨0, none⟩) 0
        ⟨⟨0, fun _ => 0, [], IPIC_VOID_VEC, false⟩, []⟩).map Machine.trace = none := by
  decide

/-- C9: with vector 3 resolved, offset 0 and no handler registered at entry 3, a run of
`scr_ipic_irq_handler` performs the call through the entry all the same: the run faults
there and the end of service is not issued. -/
theorem scr_ipic_irq_handler_missing_handler_faults :
    (scr_ipic_irq_handler ⟨XLen.rv32, false, 16, 0⟩ (fun _ => ⟨0, none⟩) 0
        ⟨⟨0, fun _ => 0, [], 3, false⟩, []⟩).map Machine.trace = none := by
  decide

/-- What the start of service changes in the controller: the select register and the words
of the lines other than the resolved one are untouched; in the word of the resolved line
only the pending bit changes, and it is clear unless the void vector was resolved. -/
theorem soi_frame (c : Config) (s : Regs) :
    (Regs.write c IPIC_SOI 0 s).idx = s.idx ∧
    (∀ j, j ≠ s.arb → (Regs.write c IPIC_SOI 0 s).icsr j = s.icsr j) ∧
    (∀ i, ((Regs.write c IPIC_SOI 0 s).line_word c s.arb).testBit (i + 1) =
      (s.line_word c s.arb).testBit (i + 1)) ∧
    ((Regs.write c IPIC_SOI 0 s).line_word c s.arb).testBit 0 =
      (decide (s.arb = IPIC_VOID_VEC) && (s.line_word c s.arb).testBit 0) := by
  have hlt : IPIC_IRQ_PENDING < c.ulong_mod := small_lt_ulong_mod c _ (by decide)
  have hicsr : (Regs.write c IPIC_SOI 0 s).icsr = fun i =>
      if i = s.arb ∧ s.arb ≠ IPIC_VOID_VEC then s.icsr i &&& ulong_not c IPIC_IRQ_PENDING
      else s.icsr i := by
    simp [Regs.write, reg_ne]
  refine ⟨by simp [Regs.write, reg_ne], ?_, ?_, ?_⟩
  · intro j hj
    rw [hicsr]
    simp [hj]
  · intro i
    unfold Regs.line_word
    rw [hicsr]
    by_cases hv : s.arb = IPIC_VOID_VEC
    · simp [hv]
    · simp only [hv, ne_eq, not_false_eq_true, and_self, if_true, testBit_mod_ulong,
        Nat.testBit_and, testBit_ulong_not c _ _ hlt, testBit_pending]
      cases decide (i + 1 < c.xlen.bits) <;> simp
  · unfold Regs.line_word
    rw [hicsr]
    by_cases hv : s.arb = IPIC_VOID_VEC
    · simp [hv]
    · simp only [hv, ne_eq, not_false_eq_true, and_self, if_true, testBit_mod_ulong,
        Nat.testBit_and, testBit_ulong_not c _ _ hlt, testBit_pending]
      simp

/-- C10 (as stated, refuted): with vector 3 resolved, the word of line 3 equal to 3 (enabled
and pending) and a handler at entry 3 that changes nothing, the word of line 3 is 2 after
the run of `scr_ipic_irq_handler`: the start of service has cleared its pending bit. -/
theorem scr_ipic_irq_handler_changes_resolved_word :
    (scr_ipic_irq_handler ⟨XLen.rv32, false, 16, 0⟩ (fun _ => ⟨5, some (fun _ s => s)⟩) 0
        ⟨⟨4, fun _ => 3, [], 3, false⟩, []⟩).map (fun m => m.hw.icsr 3) = some 2 ∧
    (scr_ipic_irq_handler ⟨XLen.rv32, false, 16, 0⟩ (fun _ => ⟨5, some (fun _ s => s)⟩) 0
        ⟨⟨4, fun _ => 3, [], 3, false⟩, []⟩).map Machine.trace =
      some [Event.csr_write IPIC_SOI 0, Event.csr_read IPIC_CISV, Event.isr_call 3 5,
        Event.csr_write IPIC_EOI 0] := by
  decide

/-- C10 (amended): a run of `scr_ipic_irq_handler` that reaches a handler returns; the
driver itself writes no register but `IPIC_SOI` and `IPIC_EOI` and reads none but
`IPIC_CISV`; and when the handler it calls leaves the select register and the per-line words
as they are, then after the run the select register and the words of all lines other than
the resolved one are what they were before it, and the word of the resolved line differs at
most in its pending bit, which the start of service clears for a real vector. -/
theorem scr_ipic_irq_handler_frame (c : Config) (tbl : Nat → IsrTableEntry) (a : Nat)
    (m : Machine) (h : Nat → Regs → Regs)
    (hh : (tbl ((Regs.read c IPIC_CISV (Regs.write c IPIC_SOI 0 m.hw) + c.isr_tbl_offset)
      % c.ulong_mod)).isr = some h)
    (hidx : (h (tbl ((Regs.read c IPIC_CISV (Regs.write c IPIC_SOI 0 m.hw) + c.isr_tbl_offset)
      % c.ulong_mod)).arg (Regs.write c IPIC_SOI 0 m.hw)).idx = (Regs.write c IPIC_SOI 0 m.hw).idx)
    (hicsr : (h (tbl ((Regs.read c IPIC_CISV (Regs.write c IPIC_SOI 0 m.hw) + c.isr_tbl_offset)
      % c.ulong_mod)).arg (Regs.write c IPIC_SOI 0 m.hw)).icsr
        = (Regs.write c IPIC_SOI 0 m.hw).icsr) :
    ∃ m1 evs, scr_ipic_irq_handler c tbl a m = some m1 ∧
      m1.hw.idx = m.hw.idx ∧
      (∀ j, j ≠ m.hw.arb → m1.hw.icsr j = m.hw.icsr j) ∧
      (∀ i, (m1.hw.line_word c m.hw.arb).testBit (i + 1) =
        (m.hw.line_word c m.hw.arb).testBit (i + 1)) ∧
      (m1.hw.line_word c m.hw.arb).testBit 0 =
        (decide (m.hw.arb = IPIC_VOID_VEC) && (m.hw.line_word c m.hw.arb).testBit 0) ∧
      m1.trace = m.trace ++ evs ∧
      (∀ r x, Event.csr_write r x ∈ evs → r = IPIC_SOI ∨ r = IPIC_EOI) ∧
      (∀ r, Event.csr_read r ∈ evs → r = IPIC_CISV) := by
  obtain ⟨s1, s2, s3, s4⟩ := soi_frame c m.hw
  have e1 : ∀ s : Regs, (Regs.write c IPIC_EOI 0 s).idx = s.idx := by
    intro s; simp [Regs.write, reg_ne]
  have e2 : ∀ s : Regs, (Regs.write c IPIC_EOI 0 s).icsr = s.icsr := by
    intro s; simp [Regs.write, reg_ne]
  refine ⟨_, _, scr_ipic_irq_handler_run c tbl a m h hh, ?_, ?_, ?_, ?_, rfl, ?_, ?_⟩
  · rw [e1, hidx]; exact s1
  · intro j hj
    rw [e2, hicsr]; exact s2 j hj
  · intro i
    have := s3 i
    unfold Regs.line_word at this ⊢
    rw [e2, hicsr]; exact this
  · have := s4
    unfold Regs.line_word at this ⊢
    rw [e2, hicsr]; exact this
  · intro r x hmem
    simp at hmem
    rcases hmem with ⟨h1, _⟩ | ⟨h1, _⟩
    · exact Or.inl h1
    · exact Or.inr h1
  · intro r hmem
    simp at hmem
    exact hmem

/-- C10 (amended) at a concrete state: vector 3 resolved, offset 0, the word of every line
equal to 3, the handler at entry 3 changes only the arbiter's next choice. -/
theorem scr_ipic_irq_handler_frame_witness :
    ∃ m1 evs, scr_ipic_irq_handler ⟨XLen.rv32, false, 16, 0⟩
        (fun _ => ⟨5, some (fun _ s => { s with arb := 16 })⟩) 0
        ⟨⟨4, fun _ => 3, [], 3, false⟩, []⟩ = some m1 ∧
      m1.hw.idx = 4 ∧
      (∀ j, j ≠ 3 → m1.hw.icsr j = 3) ∧
      (∀ i, (m1.hw.line_word ⟨XLen.rv32, false, 16, 0⟩ 3).testBit (i + 1) =
        (Regs.line_word ⟨XLen.rv32, false, 16, 0⟩ ⟨4, fun _ => 3, [], 3, false⟩ 3).testBit
          (i + 1)) ∧
      (m1.hw.line_word ⟨XLen.rv32, false, 16, 0⟩ 3).testBit 0 =
        (decide ((3 : Nat) = IPIC_VOID_VEC) &&
          (Regs.line_word ⟨XLen.rv32, false, 16, 0⟩ ⟨4, fun _ => 3, [], 3, false⟩ 3).testBit
            0) ∧
      m1.trace = [] ++ evs ∧
      (∀ r x, Event.csr_write r x ∈ evs → r = IPIC_SOI ∨ r = IPIC_EOI) ∧
      (∀ r, Event.csr_read r ∈ evs → r = IPIC_CISV) :=
  scr_ipic_irq_handler_frame ⟨XLen.rv32, false, 16, 0⟩
    (fun _ => ⟨5, some (fun _ s => { s with arb := 16 })⟩) 0
    ⟨⟨4, fun _ => 3, [], 3, false⟩, []⟩ (fun _ s => { s with arb := 16 }) rfl rfl rfl

/-! ## Locking, initialisation and the literal query -/

theorem int_to_ulong_lt (c : Config) (x : Nat) : int_to_ulong c x < c.ulong_mod := by
  have h1 : x % INT_MOD < INT_MOD := Nat.mod_lt _ (by unfold INT_MOD; positivity)
  have h2 := int_mod_le_ulong_mod c
  unfold int_to_ulong
  split <;> omega

/-- The two writes of `ipic_irq_setup`, and what it leaves untouched. -/
theorem setup_trace (c : Config) (v l mode flags : Nat) (m : Machine) :
    (ipic_irq_setup c v l mode flags m).2.trace =
      m.trace ++ [Event.csr_write IPIC_IDX (int_to_ulong c (ipic_irq_setup c v l mode flags m).1),
        Event.csr_write IPIC_ICSR
          (int_to_ulong c (MK_IRQ_CFG l mode (flags ||| IPIC_IRQ_CLEAR_PENDING)))] ∧
    (ipic_irq_setup c v l mode flags m).2.hw.idx =
      int_to_ulong c (ipic_irq_setup c v l mode flags m).1 ∧
    (ipic_irq_setup c v l mode flags m).2.hw.mie = m.hw.mie ∧
    ∀ j, j ≠ int_to_ulong c (ipic_irq_setup c v l mode flags m).1 →
      (ipic_irq_setup c v l mode flags m).2.hw.icsr j = m.hw.icsr j := by
  have hm : ∀ x, int_to_ulong c x % c.ulong_mod = int_to_ulong c x :=
    fun x => Nat.mod_eq_of_lt (int_to_ulong_lt c x)
  refine ⟨?_, ?_, ?_, ?_⟩
  · simp [ipic_irq_setup, csr_write, hm]
  · simp [ipic_irq_setup, csr_write, Regs.write, reg_ne, hm]
  · simp only [ipic_irq_setup, csr_write, Regs.write, reg_ne, if_true, if_false]
  · intro j hj
    simp [ipic_irq_setup, csr_write, Regs.write, reg_ne, hm] at hj ⊢
    intro h
    exact absurd h hj

/-- The configuration word as one disjunction truncated to an `int`. -/
theorem MK_IRQ_CFG_eq (l mode flags : Nat) :
    MK_IRQ_CFG l mode (flags ||| IPIC_IRQ_CLEAR_PENDING) =
      (mode ||| flags ||| IPIC_IRQ_CLEAR_PENDING ||| (l <<< IPIC_IRQ_LN_OFFS)) % INT_MOD := by
  apply Nat.eq_of_testBit_eq
  intro i
  unfold MK_IRQ_CFG INT_MOD
  simp only [Nat.testBit_or, Nat.testBit_mod_two_pow]
  cases decide (i < 32) <;> simp [Bool.or_assoc]

/-- Bit 4 of a word is what the conjunction with `IPIC_VOID_VEC` tests. -/
theorem and_void_vec (x : Nat) : (x &&& IPIC_VOID_VEC ≠ 0) ↔ x.testBit 4 = true := by
  have h16 : IPIC_VOID_VEC = 2 ^ 4 := by decide
  have hb : ∀ i, (x &&& IPIC_VOID_VEC).testBit i = (x.testBit i && decide (4 = i)) := by
    intro i
    rw [Nat.testBit_and, h16, Nat.testBit_two_pow]
  constructor
  · intro hne
    by_contra hx
    apply hne
    apply Nat.eq_of_testBit_eq
    intro i
    rw [hb, Nat.zero_testBit]
    by_cases h4 : 4 = i
    · subst h4; simpa using hx
    · simp [h4]
  · intro hx hz
    have := hb 4
    rw [hz, Nat.zero_testBit, hx] at this
    simp at this

/-- C11 (as stated, refuted): `ipic_irq_reset(0)` (and so `ipic_irq_setup`) performs its
write of `IPIC_IDX` and its write of `IPIC_ICSR` without any `irq_lock()` or `irq_unlock()`. -/
theorem ipic_irq_reset_takes_no_lock :
    (ipic_irq_reset ⟨XLen.rv32, false, 16, 0⟩ 0
        ⟨⟨5, fun _ => 0, [], 16, true⟩, []⟩).trace =
      [Event.csr_write IPIC_IDX 0, Event.csr_write IPIC_ICSR 0x10301] ∧
    Event.irq_lock ∉ (ipic_irq_reset ⟨XLen.rv32, false, 16, 0⟩ 0
        ⟨⟨5, fun _ => 0, [], 16, true⟩, []⟩).trace := by
  decide

/-- C11 (amended): `riscv_ipic_irq_enable` and `riscv_ipic_irq_disable` perform their write
of `IPIC_IDX` and their accesses to `IPIC_ICSR` between one `irq_lock()` and the
`irq_unlock(key)` of the key that `irq_lock()` returned, and leave the interrupt-enable
state of the core as it was on entry; `ipic_irq_setup` and `ipic_irq_reset` take no lock:
their two writes are all they do, and they leave the interrupt-enable state as it is. -/
theorem window_access_locking (c : Config) (L v l mode flags : Nat) (m : Machine) :
    (∃ w, (riscv_ipic_irq_enable c L m).trace =
        m.trace ++ [Event.irq_lock, Event.csr_write IPIC_IDX (uint_to_ulong L),
          Event.csr_read IPIC_ICSR, Event.csr_write IPIC_ICSR w,
          Event.irq_unlock (irq_lock m).1]) ∧
    (riscv_ipic_irq_enable c L m).hw.mie = m.hw.mie ∧
    (∃ w, (riscv_ipic_irq_disable c L m).trace =
        m.trace ++ [Event.irq_lock, Event.csr_write IPIC_IDX (uint_to_ulong L),
          Event.csr_read IPIC_ICSR, Event.csr_write IPIC_ICSR w,
          Event.irq_unlock (irq_lock m).1]) ∧
    (riscv_ipic_irq_disable c L m).hw.mie = m.hw.mie ∧
    (∃ i w, (ipic_irq_setup c v l mode flags m).2.trace =
        m.trace ++ [Event.csr_write IPIC_IDX i, Event.csr_write IPIC_ICSR w]) ∧
    (ipic_irq_setup c v l mode flags m).2.hw.mie = m.hw.mie ∧
    (∃ i w, (ipic_irq_reset c v m).trace =
        m.trace ++ [Event.csr_write IPIC_IDX i, Event.csr_write IPIC_ICSR w]) ∧
    (ipic_irq_reset c v m).hw.mie = m.hw.mie := by
  refine ⟨⟨((m.hw.line_word c (uint_to_ulong L) &&& ulong_not c IPIC_IRQ_PENDING) |||
      IPIC_IRQ_ENABLE) % c.ulong_mod, ?_⟩, ?_,
    ⟨(m.hw.line_word c (uint_to_ulong L) &&&
      ulong_not c (IPIC_IRQ_ENABLE ||| IPIC_IRQ_PENDING)) % c.ulong_mod, ?_⟩, ?_,
    ⟨_, _, (setup_trace c v l mode flags m).1⟩, (setup_trace c v l mode flags m).2.2.1,
    ⟨_, _, (setup_trace c v (IPIC_IRQ_LN_VOID c) IPIC_IRQ_PRIV_MMODE
      IPIC_IRQ_CLEAR_PENDING m).1⟩,
    (setup_trace c v (IPIC_IRQ_LN_VOID c) IPIC_IRQ_PRIV_MMODE IPIC_IRQ_CLEAR_PENDING m).2.2.1⟩
  · simp [riscv_ipic_irq_enable, ipic_irq_enable, irq_lock, irq_unlock, csr_write, csr_read,
      Regs.write, Regs.read, Regs.line_word, reg_ne, uint_to_ulong_mod]
  · cases hmie : m.hw.mie <;>
      simp [riscv_ipic_irq_enable, ipic_irq_enable, irq_lock, irq_unlock, csr_write, csr_read,
        Regs.write, reg_ne, hmie]
  · simp [riscv_ipic_irq_disable, ipic_irq_disable, irq_lock, irq_unlock, csr_write, csr_read,
      Regs.write, Regs.read, Regs.line_word, reg_ne, uint_to_ulong_mod]
  · cases hmie : m.hw.mie <;>
      simp [riscv_ipic_irq_disable, ipic_irq_disable, irq_lock, irq_unlock, csr_write, csr_read,
        Regs.write, reg_ne, hmie]

/-- C16: `ipic_irq_setup(irq_vec, line, mode, flags)` returns the index it wrote to
`IPIC_IDX`; that index is `irq_vec` when static line mapping is off and `irq_vec >= 0`, and
`line` otherwise; its only other access is one write to `IPIC_ICSR`, of the word
`mode | flags | IPIC_IRQ_CLEAR_PENDING | (line << 12)`; the word of every other index is
left as it was. -/
theorem ipic_irq_setup_index_and_word (c : Config) (irq_vec line mode flags : Nat)
    (m : Machine) :
    (ipic_irq_setup c irq_vec line mode flags m).1 =
      (if c.static_line_mapping = false ∧ int_is_neg irq_vec = false then irq_vec % INT_MOD
       else line % INT_MOD) ∧
    (ipic_irq_setup c irq_vec line mode flags m).2.trace =
      m.trace ++ [Event.csr_write IPIC_IDX
          (int_to_ulong c (ipic_irq_setup c irq_vec line mode flags m).1),
        Event.csr_write IPIC_ICSR (int_to_ulong c
          ((mode ||| flags ||| IPIC_IRQ_CLEAR_PENDING ||| (line <<< IPIC_IRQ_LN_OFFS))
            % INT_MOD))] ∧
    (ipic_irq_setup c irq_vec line mode flags m).2.hw.idx =
      int_to_ulong c (ipic_irq_setup c irq_vec line mode flags m).1 ∧
    ∀ j, j ≠ int_to_ulong c (ipic_irq_setup c irq_vec line mode flags m).1 →
      (ipic_irq_setup c irq_vec line mode flags m).2.hw.icsr j = m.hw.icsr j := by
  have h := setup_trace c irq_vec line mode flags m
  refine ⟨?_, ?_, h.2.1, h.2.2.2⟩
  · cases hs : c.static_line_mapping <;> cases hn : int_is_neg irq_vec <;>
      simp [ipic_irq_setup, hs, hn]
  · rw [h.1, MK_IRQ_CFG_eq]

/-- C13 (as stated, refuted): with `IPIC_CISV` reading 1, `riscv_ipic_irq_is_enabled(3)`
returns 1 although 3 is not the vector in service; and with `IPIC_CISV` reading 0,
`riscv_ipic_irq_is_enabled(0)` returns 0 although 0 is the vector in service. -/
theorem riscv_ipic_irq_is_enabled_not_equality :
    (Regs.read ⟨XLen.rv32, false, 16, 0⟩ IPIC_CISV ⟨0, fun _ => 0, [1], 16, true⟩ = 1 ∧
      (riscv_ipic_irq_is_enabled ⟨XLen.rv32, false, 16, 0⟩ 3
        ⟨⟨0, fun _ => 0, [1], 16, true⟩, []⟩).1 = 1) ∧
    (Regs.read ⟨XLen.rv32, false, 16, 0⟩ IPIC_CISV ⟨0, fun _ => 0, [0], 16, true⟩ = 0 ∧
      (riscv_ipic_irq_is_enabled ⟨XLen.rv32, false, 16, 0⟩ 0
        ⟨⟨0, fun _ => 0, [0], 16, true⟩, []⟩).1 = 0) := by
  decide

/-- C13 (amended): for every `irq` below the void vector and every value of `IPIC_CISV`,
`riscv_ipic_irq_is_enabled(irq)` returns nonzero exactly when the bitwise conjunction of
`irq` and the value of `IPIC_CISV` is nonzero. -/
theorem riscv_ipic_irq_is_enabled_below_void (c : Config) (irq : Nat) (m : Machine)
    (h : irq < IPIC_VOID_VEC) :
    (riscv_ipic_irq_is_enabled c irq m).1 ≠ 0 ↔ irq &&& Regs.read c IPIC_CISV m.hw ≠ 0 := by
  have h16 : IPIC_VOID_VEC = 2 ^ 4 := by decide
  have hmod : irq % INT_MOD = irq := Nat.mod_eq_of_lt (by unfold INT_MOD; omega)
  have hbit : irq.testBit 4 = false := Nat.testBit_lt_two_pow (by omega)
  have hv : ¬ (irq &&& IPIC_VOID_VEC ≠ 0) := by
    rw [and_void_vec, hbit]; simp
  have hv0 : irq &&& IPIC_VOID_VEC = 0 := by
    by_contra hne; exact hv hne
  by_cases hz : irq &&& Regs.read c IPIC_CISV m.hw = 0 <;>
    simp [riscv_ipic_irq_is_enabled, csr_read, uint_to_ulong, hmod, hv0, hz]

/-- C13 (amended) at a concrete call: `riscv_ipic_irq_is_enabled(3)` with `IPIC_CISV`
reading 1. -/
theorem riscv_ipic_irq_is_enabled_below_void_witness :
    3 < IPIC_VOID_VEC ∧
    ((riscv_ipic_irq_is_enabled ⟨XLen.rv32, false, 16, 0⟩ 3
        ⟨⟨0, fun _ => 0, [1], 16, true⟩, []⟩).1 ≠ 0 ↔
      3 &&& Regs.read ⟨XLen.rv32, false, 16, 0⟩ IPIC_CISV ⟨0, fun _ => 0, [1], 16, true⟩ ≠ 0) :=
  ⟨by decide, riscv_ipic_irq_is_enabled_below_void ⟨XLen.rv32, false, 16, 0⟩ 3
    ⟨⟨0, fun _ => 0, [1], 16, true⟩, []⟩ (by decide)⟩

/-- C15: `riscv_ipic_irq_is_enabled(irq_num)` returns 1 if the conjunction of `irq_num` and
the value of `IPIC_CISV` is nonzero and bit 4 of `irq_num` is clear, and 0 otherwise; it
returns 0 for line 0 and for every `irq_num` with bit 4 set; its result is the same on every
machine with the same vectors in service, whatever the select register and the per-line
words are; and all it does is one read of `IPIC_CISV`. -/
theorem riscv_ipic_irq_is_enabled_literal (c : Config) (irq_num : Nat) (m : Machine) :
    (riscv_ipic_irq_is_enabled c irq_num m).1 =
      (if uint_to_ulong irq_num &&& Regs.read c IPIC_CISV m.hw ≠ 0 ∧
          (uint_to_ulong irq_num).testBit 4 = false then 1 else 0) ∧
    (riscv_ipic_irq_is_enabled c 0 m).1 = 0 ∧
    (riscv_ipic_irq_is_enabled c (irq_num ||| IPIC_VOID_VEC) m).1 = 0 ∧
    (∀ idx icsr arb mie tr,
      (riscv_ipic_irq_is_enabled c irq_num ⟨⟨idx, icsr, m.hw.isv, arb, mie⟩, tr⟩).1 =
        (riscv_ipic_irq_is_enabled c irq_num m).1) ∧
    (riscv_ipic_irq_is_enabled c irq_num m).2.hw = m.hw ∧
    (riscv_ipic_irq_is_enabled c irq_num m).2.trace = m.trace ++ [Event.csr_read IPIC_CISV] := by
  refine ⟨?_, ?_, ?_, ?_, rfl, rfl⟩
  · have hiff := and_void_vec (uint_to_ulong irq_num)
    by_cases hb : (uint_to_ulong irq_num).testBit 4 = true
    · have h1 : uint_to_ulong irq_num &&& IPIC_VOID_VEC ≠ 0 := hiff.2 hb
      have h2 : irq_num % INT_MOD &&& IPIC_VOID_VEC ≠ 0 := h1
      simp [riscv_ipic_irq_is_enabled, csr_read, h2, hb]
    · have hb2 : (uint_to_ulong irq_num).testBit 4 = false := by simpa using hb
      have h1 : uint_to_ulong irq_num &&& IPIC_VOID_VEC = 0 := by
        by_contra hne; exact hb (hiff.1 hne)
      have h2 : irq_num % INT_MOD &&& IPIC_VOID_VEC = 0 := h1
      simp [riscv_ipic_irq_is_enabled, csr_read, h2, hb2]
  · simp [riscv_ipic_irq_is_enabled, csr_read, uint_to_ulong]
  · have hb : ((irq_num ||| IPIC_VOID_VEC) % INT_MOD).testBit 4 = true := by
      have h16 : IPIC_VOID_VEC = 2 ^ 4 := by decide
      unfold INT_MOD
      rw [Nat.testBit_mod_two_pow, Nat.testBit_or, h16, Nat.testBit_two_pow]
      simp
    have h2 : (irq_num ||| IPIC_VOID_VEC) % INT_MOD &&& IPIC_VOID_VEC ≠ 0 :=
      (and_void_vec _).2 hb
    simp [riscv_ipic_irq_is_enabled, csr_read, h2]
  · intro idx icsr arb mie tr
    simp [riscv_ipic_irq_is_enabled, csr_read, Regs.read, reg_ne]

/-- The loop of `scr_ipic_init` logs one reset per index, in order, and touches neither the
installed handlers nor the masks of the core. -/
theorem init_loop_steps (c : Config) (l : List Nat) (b : Boot) :
    (l.foldl (init_reset c) b).steps = b.steps ++ l.map InitStep.ipic_irq_reset ∧
    (l.foldl (init_reset c) b).connected = b.connected ∧
    (l.foldl (init_reset c) b).unmasked = b.unmasked := by
  induction l generalizing b with
  | nil => simp
  | cons i l ih =>
    rw [List.foldl_cons]
    obtain ⟨h1, h2, h3⟩ := ih (init_reset c b i)
    refine ⟨?_, ?_, ?_⟩
    · rw [h1]; simp [init_reset]
    · rw [h2]; rfl
    · rw [h3]; rfl

/-- `scr_ipic_init` resets the indices `0, ..., N - 1` in ascending order and no other, then
installs the handler on the machine external line, then unmasks that line, and returns 0. -/
theorem scr_ipic_init_steps (c : Config) (b : Boot) :
    (scr_ipic_init c b).1 = 0 ∧
    (scr_ipic_init c b).2.steps =
      b.steps ++ (List.range (PLF_IPIC_IRQ_VEC_NUM c)).map InitStep.ipic_irq_reset ++
        [InitStep.irq_connect RISCV_MACHINE_EXT_IRQ IPIC_IRQ_LEVEL 0 0,
         InitStep.irq_enable RISCV_MACHINE_EXT_IRQ] ∧
    (scr_ipic_init c b).2.connected = RISCV_MACHINE_EXT_IRQ :: b.connected ∧
    (scr_ipic_init c b).2.unmasked = RISCV_MACHINE_EXT_IRQ :: b.unmasked := by
  obtain ⟨h1, h2, h3⟩ := init_loop_steps c (List.range (PLF_IPIC_IRQ_VEC_NUM c)) b
  refine ⟨rfl, ?_, ?_, ?_⟩
  · simp [scr_ipic_init, irq_enable, IRQ_CONNECT, h1]
  · simp [scr_ipic_init, irq_enable, IRQ_CONNECT, h2]
  · simp [scr_ipic_init, irq_enable, IRQ_CONNECT, h3]

/-- With dynamic line mapping the loop of `scr_ipic_init` over `0, ..., n - 1` leaves every
line below `n` in the reset state. -/
theorem init_loop_dynamic (c : Config) (b : Boot) (hs : c.static_line_mapping = false)
    (hN : c.ln_num < 2 ^ 19) (n : Nat) (hn : n ≤ c.ln_num) :
    ∀ L, L < n →
      is_reset_word c (((List.range n).foldl (init_reset c) b).m.hw.line_word c L) := by
  induction n with
  | zero => intro L hL; omega
  | succ n ih =>
    intro L hL
    rw [List.range_succ, List.foldl_append]
    simp only [List.foldl_cons, List.foldl_nil]
    by_cases hLn : L = n
    · subst hLn
      obtain ⟨_, h1, h2, h3, h4⟩ := ipic_irq_reset_dynamic c L
        ((List.range L).foldl (init_reset c) b).m hs (by omega) hN
      exact ⟨h1, h2, h3, h4⟩
    · have hprev := ih (by omega) L (by omega)
      have hidx := (ipic_irq_reset_dynamic c n
        ((List.range n).foldl (init_reset c) b).m hs (by omega) hN).1
      have hsame : (init_reset c ((List.range n).foldl (init_reset c) b) n).m.hw.icsr L =
          ((List.range n).foldl (init_reset c) b).m.hw.icsr L := by
        have ht := setup_trace c n (IPIC_IRQ_LN_VOID c) IPIC_IRQ_PRIV_MMODE
          IPIC_IRQ_CLEAR_PENDING ((List.range n).foldl (init_reset c) b).m
        have hi : int_to_ulong c (ipic_irq_setup c n (IPIC_IRQ_LN_VOID c) IPIC_IRQ_PRIV_MMODE
            IPIC_IRQ_CLEAR_PENDING ((List.range n).foldl (init_reset c) b).m).1 = n := by
          rw [← ht.2.1]; exact hidx
        exact ht.2.2.2 L (by rw [hi]; exact hLn)
      unfold Regs.line_word at hprev ⊢
      rw [hsame]
      exact hprev

/-- With dynamic line mapping, after `scr_ipic_init` every line in `[0, N)` is in the reset
state. -/
theorem scr_ipic_init_dynamic (c : Config) (b : Boot) (hs : c.static_line_mapping = false)
    (hN : c.ln_num < 2 ^ 19) (L : Nat) (hL : L < c.ln_num) :
    is_reset_word c ((scr_ipic_init c b).2.m.hw.line_word c L) :=
  init_loop_dynamic c b hs hN c.ln_num (le_refl _) L hL

/-- C12: with static line mapping on a 16-line controller whose lines are all enabled and
pending, `scr_ipic_init` makes the calls the claim lists (the resets of 0, ..., 15 in order,
then the installation of the handler, then the unmasking) and returns 0, but every reset
selects index 16: line 0 is not in the reset state afterwards, its enable bit is still set. -/
theorem scr_ipic_init_static_leaves_lines :
    (scr_ipic_init ⟨XLen.rv32, true, 16, 0⟩
        ⟨⟨⟨0, fun _ => IPIC_IRQ_ENABLE ||| IPIC_IRQ_PENDING, [], 16, false⟩, []⟩, [], [], []⟩).1
      = 0 ∧
    (scr_ipic_init ⟨XLen.rv32, true, 16, 0⟩
        ⟨⟨⟨0, fun _ => IPIC_IRQ_ENABLE ||| IPIC_IRQ_PENDING, [], 16, false⟩, []⟩, [], [], []⟩).2.steps
      = (List.range 16).map InitStep.ipic_irq_reset ++
          [InitStep.irq_connect RISCV_MACHINE_EXT_IRQ IPIC_IRQ_LEVEL 0 0,
           InitStep.irq_enable RISCV_MACHINE_EXT_IRQ] ∧
    ¬ is_reset_word ⟨XLen.rv32, true, 16, 0⟩
      ((scr_ipic_init ⟨XLen.rv32, true, 16, 0⟩
        ⟨⟨⟨0, fun _ => IPIC_IRQ_ENABLE ||| IPIC_IRQ_PENDING, [], 16, false⟩, []⟩, [], [], []⟩).2.m.hw.line_word
          ⟨XLen.rv32, true, 16, 0⟩ 0) ∧
    ((scr_ipic_init ⟨XLen.rv32, true, 16, 0⟩
        ⟨⟨⟨0, fun _ => IPIC_IRQ_ENABLE ||| IPIC_IRQ_PENDING, [], 16, false⟩, []⟩, [], [], []⟩).2.m.hw.line_word
          ⟨XLen.rv32, true, 16, 0⟩ 0).testBit 1 = true := by
  decide

end ScrIpic

namespace ScrMpu

open ScrIpic (XLen)

/-! ## MPU configuration -/

theorem regions_lt_ulong_mod (c : Config) : c.regions < c.ulong_mod := by
  have h := c.regions_lt
  unfold Config.ulong_mod
  cases c.xlen <;> simp [XLen.bits] <;> omega

/-- What `scr_mpu_region_setup` leaves in the region it selects, and that it touches no
other region. -/
theorem region_setup_spec (c : Config) (rn base size attr : Nat) (m : Machine)
    (hrn : rn < c.ulong_mod) :
    (scr_mpu_region_setup c rn base size attr m).hw.rgn rn =
      { ctrl := attr % c.ulong_mod, addr := SCR_MPU_MK_ADDR c base % c.ulong_mod,
        mask := SCR_MPU_MK_MASK c size % c.ulong_mod } ∧
    ∀ j, j ≠ rn → (scr_mpu_region_setup c rn base size attr m).hw.rgn j = m.hw.rgn j := by
  have h := Nat.mod_eq_of_lt hrn
  constructor
  · simp [scr_mpu_region_setup, csr_write, Regs.write, h]
  · intro j hj
    simp [scr_mpu_region_setup, csr_write, Regs.write, h, hj]

/-- The first loop of `scr_mpu_setup` on a terminated table with room for all its
attributed entries: it returns, the counter has advanced by their number, the regions
from `rn` on hold them in table order, and nothing else has changed. -/
theorem setup_loop_spec (c : Config) (tbl : List scr_mem_region_info) :
    ∀ (rn : Nat) (m : Machine), (∃ r ∈ tbl, r.size = 0) →
      rn + (attributed tbl).length < c.regions →
      ∃ m1, setup_loop c tbl rn m = some (rn + (attributed tbl).length, m1) ∧
        (∀ i e, (attributed tbl)[i]? = some e → m1.hw.rgn (rn + i) = programmed c e) ∧
        (∀ j, j < rn → m1.hw.rgn j = m.hw.rgn j) ∧
        ((attributed tbl).length = 0 → m1 = m) := by
  induction tbl with
  | nil => intro rn m h; simp at h
  | cons r rest ih =>
    intro rn m hterm hroom
    by_cases hsz : r.size = 0
    · have ha : attributed (r :: rest) = [] := by simp [attributed, hsz]
      refine ⟨m, ?_, ?_, ?_, ?_⟩
      · simp [setup_loop, hsz, ha]
      · intro i e h; rw [ha] at h; simp at h
      · intro j _; rfl
      · intro _; rfl
    · have hterm2 : ∃ r2 ∈ rest, r2.size = 0 := by
        obtain ⟨r2, hmem, h0⟩ := hterm
        rcases List.mem_cons.1 hmem with h | h
        · subst h; exact absurd h0 hsz
        · exact ⟨r2, h, h0⟩
      by_cases hat : r.attr = 0
      · have ha : attributed (r :: rest) = attributed rest := by
          simp [attributed, hsz, hat]
        rw [ha] at hroom ⊢
        have hrn : rn < c.regions := by omega
        obtain ⟨m1, h1, h2, h3, h4⟩ := ih rn m hterm2 hroom
        refine ⟨m1, ?_, h2, h3, h4⟩
        simp [setup_loop, hsz, hat, hrn, h1]
      · have ha : attributed (r :: rest) = r :: attributed rest := by
          simp [attributed, hsz, hat]
        rw [ha] at hroom ⊢
        simp only [List.length_cons] at hroom ⊢
        have hrn : rn < c.regions := by omega
        have hR := c.regions_lt
        have hmod : (rn + 1) % UINT_MOD = rn + 1 :=
          Nat.mod_eq_of_lt (by unfold UINT_MOD; omega)
        have hrnu : rn < c.ulong_mod := lt_trans hrn (regions_lt_ulong_mod c)
        obtain ⟨hset, hframe⟩ := region_setup_spec c rn r.base r.size
          (r.attr ||| SCR_MPU_CTRL_VALID) m hrnu
        obtain ⟨m1, h1, h2, h3, _⟩ := ih (rn + 1)
          (ifence (scr_mpu_region_setup c rn r.base r.size (r.attr ||| SCR_MPU_CTRL_VALID) m))
          hterm2 (by omega)
        refine ⟨m1, ?_, ?_, ?_, ?_⟩
        · simp only [setup_loop, hsz, hat, hrn, hmod, ne_eq, not_false_eq_true, and_self,
            if_true]
          rw [h1]
          congr 2
          omega
        · intro i e hi
          cases i with
          | zero =>
            simp at hi
            subst hi
            rw [Nat.add_zero, h3 rn (by omega)]
            exact hset
          | succ i =>
            rw [List.getElem?_cons_succ] at hi
            have := h2 i e hi
            rw [show rn + (i + 1) = rn + 1 + i by omega]
            exact this
        · intro j hj
          rw [h3 j (by omega)]
          exact hframe j (by omega)
        · intro h; omega

/-- One pass of the body of the second loop: the control word of region `rn` becomes 0 and
no other region changes. -/
theorem disable_body_spec (c : Config) (rn : Nat) (m : Machine) (hrn : rn < c.ulong_mod) :
    ((ifence (csr_write c .SCR_CSR_MPU_CTRL 0 (csr_write c .SCR_CSR_MPU_SEL rn m))).hw.rgn
        rn).ctrl = 0 ∧
    ∀ j, j ≠ rn →
      (ifence (csr_write c .SCR_CSR_MPU_CTRL 0 (csr_write c .SCR_CSR_MPU_SEL rn m))).hw.rgn j
        = m.hw.rgn j := by
  have h := Nat.mod_eq_of_lt hrn
  constructor
  · simp [ifence, csr_write, Regs.write, h]
  · intro j hj
    simp [ifence, csr_write, Regs.write, h, hj]

/-- The second loop of `scr_mpu_setup` entered with a valid region number: it returns within
the bound, the control words of the regions from `rn` to the last are 0, and the regions
below `rn` are unchanged. -/
theorem disable_loop_spec (c : Config) :
    ∀ (fuel rn : Nat) (m : Machine), rn < c.regions → c.regions - rn ≤ fuel →
      ∃ m2, disable_loop c fuel rn m = some m2 ∧
        (∀ j, rn ≤ j → j < c.regions → (m2.hw.rgn j).ctrl = 0) ∧
        (∀ j, j < rn → m2.hw.rgn j = m.hw.rgn j) := by
  intro fuel
  induction fuel with
  | zero => intro rn m h1 h2; omega
  | succ fuel ih =>
    intro rn m hrn hfuel
    have hR := c.regions_lt
    have hmod : (rn + 1) % UINT_MOD = rn + 1 :=
      Nat.mod_eq_of_lt (by unfold UINT_MOD; omega)
    have hrnu : rn < c.ulong_mod := lt_trans hrn (regions_lt_ulong_mod c)
    obtain ⟨hz, hframe⟩ := disable_body_spec c rn m hrnu
    by_cases hnext : rn + 1 < c.regions
    · obtain ⟨m2, h1, h2, h3⟩ := ih (rn + 1)
        (ifence (csr_write c .SCR_CSR_MPU_CTRL 0 (csr_write c .SCR_CSR_MPU_SEL rn m)))
        hnext (by omega)
      refine ⟨m2, ?_, ?_, ?_⟩
      · simp only [disable_loop, hmod, hnext, if_true]
        exact h1
      · intro j hj1 hj2
        by_cases hj : j = rn
        · subst hj; rw [h3 j (by omega)]; exact hz
        · exact h2 j (by omega) hj2
      · intro j hj
        rw [h3 j (by omega)]
        exact hframe j (by omega)
    · refine ⟨ifence (csr_write c .SCR_CSR_MPU_CTRL 0 (csr_write c .SCR_CSR_MPU_SEL rn m)),
        ?_, ?_, ?_⟩
      · simp only [disable_loop, hmod, hnext, if_false]
      · intro j hj1 hj2
        have hj : j = rn := by omega
        subst hj; exact hz
      · intro j hj
        exact hframe j (by omega)

/-- C14: on a table terminated by an entry of size 0, with `k` attributed entries before it:
when `k = 0`, `scr_mpu_setup` returns without any register access; when
`1 <= k <= SCR_MPU_REGIONS - 2`, it returns, region `i + 1` holds the encoded base
(`SCR_MPU_MK_ADDR`), the encoded size (`SCR_MPU_MK_MASK`) and `attr | SCR_MPU_CTRL_VALID` of
the attributed entry number `i` (counted from 0, in table order), every region in
`[k + 1, SCR_MPU_REGIONS)` has control word 0, and region 0 has control word 0. -/
theorem scr_mpu_setup_programs (c : Config) (tbl : List scr_mem_region_info) (m : Machine)
    (hterm : ∃ r ∈ tbl, r.size = 0) :
    ((attributed tbl).length = 0 → scr_mpu_setup c tbl m = some m) ∧
    (1 ≤ (attributed tbl).length → (attributed tbl).length + 2 ≤ c.regions →
      ∃ m3, scr_mpu_setup c tbl m = some m3 ∧
        (∀ i e, (attributed tbl)[i]? = some e → m3.hw.rgn (i + 1) = programmed c e) ∧
        (∀ j, (attributed tbl).length < j → j < c.regions → (m3.hw.rgn j).ctrl = 0) ∧
        (m3.hw.rgn 0).ctrl = 0) := by
  constructor
  · intro hk
    have hR : 1 + (attributed tbl).length < c.regions ∨ c.regions ≤ 1 := by omega
    rcases hR with hR | hR
    · obtain ⟨m1, h1, _, _, h4⟩ := setup_loop_spec c tbl 1 m hterm hR
      have hm := h4 hk
      subst hm
      simp [scr_mpu_setup, h1, hk]
    · obtain ⟨r0, hmem, _⟩ := hterm
      cases tbl with
      | nil => simp at hmem
      | cons r rest =>
        have hn : ¬ (1 < c.regions) := by omega
        simp [scr_mpu_setup, setup_loop, hn]
  · intro hk1 hk2
    obtain ⟨m1, h1, h2, h3, _⟩ := setup_loop_spec c tbl 1 m hterm (by omega)
    obtain ⟨m2, g1, g2, g3⟩ := disable_loop_spec c (c.regions + 1)
      (1 + (attributed tbl).length) m1 (by omega) (by omega)
    have hfin : ∀ s : Machine,
        ((csr_write c .SCR_CSR_MPU_CTRL 0 (csr_write c .SCR_CSR_MPU_SEL 0 s)).hw.rgn 0).ctrl
          = 0 ∧
        ∀ j, j ≠ 0 →
          (csr_write c .SCR_CSR_MPU_CTRL 0 (csr_write c .SCR_CSR_MPU_SEL 0 s)).hw.rgn j
            = s.hw.rgn j := by
      intro s
      constructor
      · simp [csr_write, Regs.write]
      · intro j hj
        simp [csr_write, Regs.write, hj]
    refine ⟨csr_write c .SCR_CSR_MPU_CTRL 0 (csr_write c .SCR_CSR_MPU_SEL 0 m2),
      ?_, ?_, ?_, ?_⟩
    · simp only [scr_mpu_setup, h1]
      rw [if_pos (by omega), g1]
      rfl
    · intro i e hi
      have hlt : i < (attributed tbl).length := by
        rcases Nat.lt_or_ge i (attributed tbl).length with h | h
        · exact h
        · rw [List.getElem?_eq_none h] at hi; simp at hi
      rw [(hfin m2).2 (i + 1) (by omega), g3 (i + 1) (by omega),
        show i + 1 = 1 + i by omega]
      exact h2 i e hi
    · intro j hj1 hj2
      rw [(hfin m2).2 j (by omega)]
      exact g2 j (by omega) hj2
    · exact (hfin m2).1

/-- C14 at a concrete table: four regions, two attributed entries around an entry without
attributes, then the terminator. -/
theorem scr_mpu_setup_programs_witness :
    (∃ r ∈ [(⟨0x1000, 0x1000, 6⟩ : scr_mem_region_info), ⟨0, 0x100, 0⟩, ⟨0x8000, 0x400, 2⟩,
        ⟨0, 0, 0⟩], r.size = 0) ∧
    ∃ m3, scr_mpu_setup ⟨XLen.rv32, 4, by decide⟩
        [⟨0x1000, 0x1000, 6⟩, ⟨0, 0x100, 0⟩, ⟨0x8000, 0x400, 2⟩, ⟨0, 0, 0⟩]
        ⟨⟨0, fun _ => ⟨1, 0, 0⟩⟩, []⟩ = some m3 ∧
      m3.hw.rgn 2 = programmed ⟨XLen.rv32, 4, by decide⟩ ⟨0x8000, 0x400, 2⟩ ∧
      (m3.hw.rgn 3).ctrl = 0 ∧ (m3.hw.rgn 0).ctrl = 0 := by
  have hterm : ∃ r ∈ [(⟨0x1000, 0x1000, 6⟩ : scr_mem_region_info), ⟨0, 0x100, 0⟩,
      ⟨0x8000, 0x400, 2⟩, ⟨0, 0, 0⟩], r.size = 0 := ⟨⟨0, 0, 0⟩, by decide, rfl⟩
  obtain ⟨m3, h1, h2, h3, h4⟩ := (scr_mpu_setup_programs ⟨XLen.rv32, 4, by decide⟩
    [⟨0x1000, 0x1000, 6⟩, ⟨0, 0x100, 0⟩, ⟨0x8000, 0x400, 2⟩, ⟨0, 0, 0⟩]
    ⟨⟨0, fun _ => ⟨1, 0, 0⟩⟩, []⟩ hterm).2 (by decide) (by decide)
  exact ⟨hterm, m3, h1, h2 1 ⟨0x8000, 0x400, 2⟩ (by decide), h3 3 (by decide) (by decide), h4⟩

/-- The first loop of `scr_mpu_setup` returns on every terminated table, with a region
counter that is at most `SCR_MPU_REGIONS` when it started below it. -/
theorem setup_loop_terminates (c : Config) (tbl : List scr_mem_region_info) :
    ∀ (rn : Nat) (m : Machine), (∃ r ∈ tbl, r.size = 0) →
      ∃ rn1 m1, setup_loop c tbl rn m = some (rn1, m1) ∧ rn ≤ rn1 ∧
        rn1 ≤ max rn c.regions := by
  induction tbl with
  | nil => intro rn m h; simp at h
  | cons r rest ih =>
    intro rn m hterm
    by_cases hcond : r.size ≠ 0 ∧ rn < c.regions
    · have hterm2 : ∃ r2 ∈ rest, r2.size = 0 := by
        obtain ⟨r2, hmem, h0⟩ := hterm
        rcases List.mem_cons.1 hmem with h | h
        · subst h; exact absurd h0 hcond.1
        · exact ⟨r2, h, h0⟩
      by_cases hat : r.attr = 0
      · obtain ⟨rn1, m1, h1, h2, h3⟩ := ih rn m hterm2
        exact ⟨rn1, m1, by simp [setup_loop, hcond, hat, h1], h2, h3⟩
      · have hR := c.regions_lt
        have hmod : (rn + 1) % UINT_MOD = rn + 1 :=
          Nat.mod_eq_of_lt (by unfold UINT_MOD; omega)
        obtain ⟨rn1, m1, h1, h2, h3⟩ := ih (rn + 1)
          (ifence (scr_mpu_region_setup c rn r.base r.size (r.attr ||| SCR_MPU_CTRL_VALID) m))
          hterm2
        refine ⟨rn1, m1, ?_, by omega, ?_⟩
        · simp only [setup_loop, hcond, hat, hmod, ne_eq, not_false_eq_true, and_self, if_true]
          exact h1
        · have := hcond.2
          omega
    · exact ⟨rn, m, by simp only [setup_loop, hcond, if_false], le_refl _, le_max_left _ _⟩

/-- The second loop of `scr_mpu_setup` returns within `SCR_MPU_REGIONS - rn + 1` passes. -/
theorem disable_loop_terminates (c : Config) :
    ∀ (fuel rn : Nat) (m : Machine), rn < 2 ^ 31 → c.regions - rn < fuel →
      ∃ m2, disable_loop c fuel rn m = some m2 := by
  intro fuel
  induction fuel with
  | zero => intro rn m _ h; omega
  | succ fuel ih =>
    intro rn m hrn hfuel
    have hR := c.regions_lt
    have hmod : (rn + 1) % UINT_MOD = rn + 1 :=
      Nat.mod_eq_of_lt (by unfold UINT_MOD; omega)
    by_cases hnext : rn + 1 < c.regions
    · obtain ⟨m2, h⟩ := ih (rn + 1)
        (ifence (csr_write c .SCR_CSR_MPU_CTRL 0 (csr_write c .SCR_CSR_MPU_SEL rn m)))
        (by omega) (by omega)
      exact ⟨m2, by simp only [disable_loop, hmod, hnext, if_true]; exact h⟩
    · exact ⟨ifence (csr_write c .SCR_CSR_MPU_CTRL 0 (csr_write c .SCR_CSR_MPU_SEL rn m)),
        by simp only [disable_loop, hmod, hnext, if_false]⟩

/-- `scr_mpu_setup` returns on every table terminated by an entry of size 0. -/
theorem scr_mpu_setup_terminates (c : Config) (tbl : List scr_mem_region_info) (m : Machine)
    (hterm : ∃ r ∈ tbl, r.size = 0) : ∃ m3, scr_mpu_setup c tbl m = some m3 := by
  obtain ⟨rn1, m1, h1, h2, h3⟩ := setup_loop_terminates c tbl 1 m hterm
  have hR := c.regions_lt
  by_cases hgt : rn1 > 1
  · obtain ⟨m2, g⟩ := disable_loop_terminates c (c.regions + 1) rn1 m1
      (by rcases Nat.le_total 1 c.regions with h | h
          · rw [max_eq_right h] at h3; omega
          · rw [max_eq_left h] at h3; omega) (by omega)
    exact ⟨csr_write c .SCR_CSR_MPU_CTRL 0 (csr_write c .SCR_CSR_MPU_SEL 0 m2),
      by simp [scr_mpu_setup, h1, hgt, g]⟩
  · exact ⟨m1, by simp [scr_mpu_setup, h1, hgt]⟩

/-- C17: with `SCR_MPU_REGIONS` = 4 and a terminated table of three attributed entries,
`scr_mpu_setup` returns and the values it writes to `SCR_CSR_MPU_SEL` are 1, 2, 3, 4, 0: the
second loop runs its body once with the region counter equal to `SCR_MPU_REGIONS`, and 4 is
not a region number. -/
theorem scr_mpu_setup_selects_invalid_region :
    (scr_mpu_setup ⟨XLen.rv32, 4, by decide⟩
        [⟨0x1000, 0x1000, 6⟩, ⟨0x4000, 0x100, 4⟩, ⟨0x8000, 0x400, 2⟩, ⟨0, 0, 0⟩]
        ⟨⟨0, fun _ => ⟨0, 0, 0⟩⟩, []⟩).map (fun m => sel_writes m.trace) =
      some [1, 2, 3, 4, 0] ∧
    ¬ (4 < Config.regions ⟨XLen.rv32, 4, by decide⟩) := by
  decide

end ScrMpu
